import Mathlib

/-!
Verification development for the ALTA (Asymmetric Loss-Tolerant
Authentication) reference implementation.  The Python sources under
`alta/` are shallowly embedded below: pure functions become Lean
functions, the stateful producer and consumer become explicit
state-passing step functions, machine integers are `Nat`/`Int` with
explicit range conditions, and fallible code returns `Option`/`Except`.
-/

set_option maxRecDepth 4000

namespace Alta

/-! ## Association lists

Python `dict`s are embedded as insertion-ordered association lists.
`alookup` is `d.get(k)`, `asetdefault` is `d.setdefault(k, v)`,
`aset` is `d[k] = v` (replace in place, else append), `aerase` is
`del d[k]`. -/

def alookup {α : Type} : List (Int × α) → Int → Option α
  | [], _ => none
  | (k', v) :: t, k => if k' = k then some v else alookup t k

def asetdefault {α : Type} (l : List (Int × α)) (k : Int) (v : α) : List (Int × α) :=
  if (alookup l k).isSome then l else l ++ [(k, v)]

def aset {α : Type} : List (Int × α) → Int → α → List (Int × α)
  | [], k, v => [(k, v)]
  | (k', v') :: t, k, v => if k' = k then (k, v) :: t else (k', v') :: aset t k v

def aerase {α : Type} : List (Int × α) → Int → List (Int × α)
  | [], _ => []
  | (k', v') :: t, k => if k' = k then t else (k', v') :: aerase t k

/-! ## Sorting

Python's `sorted` is a stable ascending sort; an insertion sort gives
the same result on the integer lists and key/value pair lists used by
the sources. -/

def sortInts (l : List Int) : List Int :=
  l.insertionSort (· ≤ ·)

def pairLE {α : Type} (x y : Int × α) : Prop := x.1 ≤ y.1

instance {α : Type} : DecidableRel (pairLE (α := α)) :=
  fun x y => inferInstanceAs (Decidable (x.1 ≤ y.1))

def sortPairs {α : Type} (l : List (Int × α)) : List (Int × α) :=
  l.insertionSort pairLE

/-! ## SHA-256 and the truncated hash (`alta/truncated_hash.py`)

The model profile hashes with `TruncatedHash(hashlib.sha256, 8)`:
SHA-256 truncated to its first 8 octets.  SHA-256 is embedded
executably over lists of octets (`Nat` values below 256), with 32-bit
words as `Nat` reduced modulo `2^32`. -/

def w32 : Nat := 4294967296

def add32 (x y : Nat) : Nat := (x + y) % w32

def rotr32 (n x : Nat) : Nat := ((x >>> n) ||| (x <<< (32 - n))) % w32

def xor3 (a b c : Nat) : Nat := (a ^^^ b) ^^^ c

def ssig0 (x : Nat) : Nat := xor3 (rotr32 7 x) (rotr32 18 x) (x >>> 3)

def ssig1 (x : Nat) : Nat := xor3 (rotr32 17 x) (rotr32 19 x) (x >>> 10)

def bsig0 (x : Nat) : Nat := xor3 (rotr32 2 x) (rotr32 13 x) (rotr32 22 x)

def bsig1 (x : Nat) : Nat := xor3 (rotr32 6 x) (rotr32 11 x) (rotr32 25 x)

def chFn (x y z : Nat) : Nat := (x &&& y) ^^^ ((x ^^^ (w32 - 1)) &&& z)

def majFn (x y z : Nat) : Nat := ((x &&& y) ^^^ (x &&& z)) ^^^ (y &&& z)

def shaK : List Nat :=
  [1116352408, 1899447441, 3049323471, 3921009573, 961987163, 1508970993,
   2453635748, 2870763221, 3624381080, 310598401, 607225278, 1426881987,
   1925078388, 2162078206, 2614888103, 3248222580, 3835390401, 4022224774,
   264347078, 604807628, 770255983, 1249150122, 1555081692, 1996064986,
   2554220882, 2821834349, 2952996808, 3210313671, 3336571891, 3584528711,
   113926993, 338241895, 666307205, 773529912, 1294757372, 1396182291,
   1695183700, 1986661051, 2177026350, 2456956037, 2730485921, 2820302411,
   3259730800, 3345764771, 3516065817, 3600352804, 4094571909, 275423344,
   430227734, 506948616, 659060556, 883997877, 958139571, 1322822218,
   1537002063, 1747873779, 1955562222, 2024104815, 2227730452, 2361852424,
   2428436474, 2756734187, 3204031479, 3329325298]

def shaH0 : List Nat :=
  [1779033703, 3144134277, 1013904242, 2773480762,
   1359893119, 2600822924, 528734635, 1541459225]

def be8 (n : Nat) : List Nat :=
  (List.range 8).map fun i => n / 2 ^ (56 - 8 * i) % 256

def padMessage (msg : List Nat) : List Nat :=
  let L := msg.length
  let zeros := (64 + 56 - (L + 1) % 64) % 64
  msg ++ [128] ++ List.replicate zeros 0 ++ be8 (8 * L)

def bytesToWords : List Nat → List Nat
  | b0 :: b1 :: b2 :: b3 :: rest =>
      (((b0 * 256 + b1) * 256 + b2) * 256 + b3) :: bytesToWords rest
  | _ => []

def wordsToBytes (ws : List Nat) : List Nat :=
  ws.foldr (fun w acc =>
    w / 16777216 % 256 :: w / 65536 % 256 :: w / 256 % 256 :: w % 256 :: acc) []

def chunk16Aux : Nat → List Nat → List (List Nat)
  | 0, _ => []
  | _, [] => []
  | fuel + 1, x :: rest => (x :: rest.take 15) :: chunk16Aux fuel (rest.drop 15)

def chunk16 (l : List Nat) : List (List Nat) := chunk16Aux l.length l

def shaSchedule (block : List Nat) : List Nat :=
  (List.range 48).foldl
    (fun w _ =>
      w ++ [add32 (add32 (ssig1 (w.getD (w.length - 2) 0)) (w.getD (w.length - 7) 0))
              (add32 (ssig0 (w.getD (w.length - 15) 0)) (w.getD (w.length - 16) 0))])
    block

def shaCompress (h : List Nat) (block : List Nat) : List Nat :=
  let rounds := ((shaSchedule block).zip shaK).foldl
    (fun (st : List Nat) (p : Nat × Nat) =>
      match st with
      | [a, b, c, d, e, f, g, hh] =>
          let t1 := add32 hh (add32 (bsig1 e) (add32 (chFn e f g) (add32 p.2 p.1)))
          let t2 := add32 (bsig0 a) (majFn a b c)
          [add32 t1 t2, a, b, c, add32 d t1, e, f, g]
      | st => st) h
  (h.zip rounds).map fun p => add32 p.1 p.2

def sha256 (msg : List Nat) : List Nat :=
  wordsToBytes ((chunk16 (bytesToWords (padMessage msg))).foldl shaCompress shaH0)

/-- `TruncatedHash(hashlib.sha256, trunc_octets=8).digest`: the first 8
octets of the SHA-256 digest.  This is the `TruncatedSHA256` hash class
of `alta/model_payload.py`. -/
def truncSHA256 (msg : List Nat) : List Nat := (sha256 msg).take 8

/-! ## Augmented scheme (`alta/augmented_scheme.py`)

`AugmentedPeriod` builds a linked graph of nodes; the embedding uses an
arena of nodes indexed by creation order (node 0 is `A`, node 1 is `B`;
`augment` appends two fresh nodes).  Edges and `pred` pointers hold
arena ids. -/

structure AugNode where
  edges : List Nat
  pred : Option Nat
deriving Repr, DecidableEq

structure AugPeriod where
  nodes : List AugNode
  next_insert : Nat
  nodect : Nat
deriving Repr, DecidableEq

def augPeriodInit : AugPeriod :=
  ⟨[⟨[], none⟩, ⟨[], some 0⟩], 1, 2⟩

def setPred (nodes : List AugNode) (i : Nat) (p : Option Nat) : List AugNode :=
  nodes.set i ⟨(nodes.getD i ⟨[], none⟩).edges, p⟩

/-- `AugmentedPeriod.augment`: insert the pair `n1, n2` between the
insertion point's predecessor and the insertion point. -/
def augment (st : AugPeriod) : AugPeriod :=
  let q := st.next_insert
  let qpred := ((st.nodes.getD q ⟨[], none⟩).pred).getD 0
  let id1 := st.nodes.length
  let id2 := id1 + 1
  let n1 : AugNode := ⟨[qpred, q], some qpred⟩
  let n2 : AugNode := ⟨[id1, q], some id1⟩
  ⟨setPred (st.nodes ++ [n1, n2]) q (some id2), id2, st.nodect + 2⟩

def augmentIter : Nat → AugPeriod → AugPeriod
  | 0, st => st
  | n + 1, st => augmentIter n (augment st)

/-- `AugmentedPeriod._flatten`: walk the `pred` chain from `B` (id 1)
back to `A`, returning the arena ids in forward order.  The walk is
fueled by `nodect`, the length of the chain. -/
def predChain : Nat → List AugNode → Option Nat → List Nat
  | 0, _, _ => []
  | _, _, none => []
  | fuel + 1, nodes, some i =>
      predChain fuel nodes ((nodes.getD i ⟨[], none⟩).pred) ++ [i]

def flattenSeq (st : AugPeriod) : List Nat :=
  predChain st.nodect st.nodes (some 1)

/-- `AugmentedPeriod.doffsets`: for each interior node of the flattened
sequence, the sorted relative offsets of its edges. -/
def augPeriodDoffsets (st : AugPeriod) : List (List Int) :=
  let seq := flattenSeq st
  (seq.drop 1).dropLast.map fun id =>
    sortInts (((st.nodes.getD id ⟨[], none⟩).edges).map fun d =>
      (seq.indexOf d : Int) - (seq.indexOf id : Int))

/-- `AugmentedScheme._construct_doffsets`.  Invalid `p` (the
`ValueError` branch) is `none`. -/
def constructDoffsets (a p : Nat) : Option (List (List Int)) :=
  if p = 1 then some [[1, (a : Int)]]
  else if p = 2 then some [[2, 2 * (a : Int)], [-1, 1]]
  else if 3 ≤ p ∧ p % 2 = 1 then
    some ([[(p : Int), (p : Int) * (a : Int)]] ++
      augPeriodDoffsets (augmentIter ((p - 1) / 2) augPeriodInit))
  else none

/-- `AugmentedScheme._compute_soffsets`: for each `(idx, o)` with
`o ∈ doffsets[idx]`, append `-o` to `soffsets[(idx + o) % p]`. -/
def computeSoffsets (p : Nat) (doffsets : List (List Int)) : List (List Int) :=
  (doffsets.enum.foldl
    (fun (soffs : List (List Int)) (pair : Nat × List Int) =>
      pair.2.foldl
        (fun soffs o =>
          let slot := (((pair.1 : Int) + o) % (p : Int)).toNat
          soffs.set slot (soffs.getD slot [] ++ [-o]))
        soffs)
    (doffsets.map fun _ => []))

structure AugScheme where
  a : Nat
  p : Nat
  doffsets : List (List Int)
  soffsets : List (List Int)
deriving Repr, DecidableEq

/-- `AugmentedScheme.__init__`. -/
def mkAugScheme (a p : Nat) : Option AugScheme :=
  (constructDoffsets a p).map fun doffs =>
    ⟨a, p, doffs, computeSoffsets p doffs⟩

def clipOk (first last : Option Int) (x : Int) : Bool :=
  (match first with | none => true | some f => decide (f ≤ x)) &&
  (match last with | none => true | some l => decide (x ≤ l))

/-- `AugmentedScheme.sources`. -/
def AugScheme.sources (s : AugScheme) (index : Int) (first last : Option Int) : List Int :=
  sortInts (((s.soffsets.getD ((index % (s.p : Int)).toNat) []).map (index + ·)).filter
    (clipOk first last))

/-- `AugmentedScheme.destinations`. -/
def AugScheme.destinations (s : AugScheme) (index : Int) (first last : Option Int) : List Int :=
  ((s.doffsets.getD ((index % (s.p : Int)).toNat) []).map (index + ·)).filter
    (clipOk first last)

/-- `AugmentedScheme.is_ready`. -/
def AugScheme.is_ready (s : AugScheme) (want_send_index latest_index : Int) : Bool :=
  decide (latest_index - want_send_index ≥ (s.p : Int) - 1)

/-- `AugmentedScheme.in_write_window`. -/
def AugScheme.in_write_window (s : AugScheme) (query_index latest_index : Int) : Bool :=
  decide (latest_index - query_index ≤ (s.a : Int) * (s.p : Int))

/-- Convenience: sources of the scheme `(a, p)` (when `p` is valid). -/
def augSources (a p : Nat) (index : Int) (first last : Option Int) : Option (List Int) :=
  (mkAugScheme a p).map fun s => s.sources index first last

/-! ## Authentication tag (`alta/auth_tag.py`) and model payload
(`alta/model_payload.py`)

The model profile: explicit 32-bit big-endian index (`'>I'`),
single-octet signed offsets (`'>b'`), 8-octet truncated SHA-256 hashes,
Ed25519 signatures of 64 octets.  The Ed25519 signing key is embedded
as an arbitrary deterministic function `sigfn` from message octets to
signature octets (Ed25519 signing is deterministic); `verify` with the
matching verify key succeeds exactly when the signature equals
`sigfn` of the message.  Serialization returns `Option`: `none` is a
`struct.error`/`TruncatedInput`-style failure. -/

def signature_len : Nat := 64

def hash_size : Nat := 8

structure ModelAuthTag where
  index : Nat
  hash_count : Nat
  signature_present : Bool
  hashes : List (Int × List Nat)
  signature : Option (List Nat)
deriving Repr, DecidableEq

/-- `AuthTag.chained_hashes`: pairs in order of increasing source index. -/
def chainedHashes (t : ModelAuthTag) : List (Int × List Nat) :=
  sortPairs t.hashes

/-- `AuthTag.get_chained_hash`. -/
def getChainedHash (t : ModelAuthTag) (src : Int) : Option (List Nat) :=
  alookup t.hashes src

inductive TagErr where
  | overwriteHash
deriving Repr, DecidableEq

/-- `AuthTag.chain_payload_hash`: raises `OverwriteHashError` when the
source index already has a hash; otherwise inserts and updates
`options.hash_count` to the map size. -/
def chainPayloadHash (t : ModelAuthTag) (src : Int) (h : List Nat) :
    Except TagErr ModelAuthTag :=
  if (alookup t.hashes src).isSome then .error .overwriteHash
  else .ok { t with hashes := t.hashes ++ [(src, h)],
                    hash_count := t.hashes.length + 1 }

/-- `AuthTagOptions.to_str`: `pack('>B', hash_count << 5 | sig << 4)`;
`pack` fails when the value exceeds one octet. -/
def optionsToStr (hash_count : Nat) (signature_present : Bool) : Option (List Nat) :=
  let v := (hash_count <<< 5) ||| ((if signature_present then 1 else 0) <<< 4)
  if v < 256 then some [v] else none

/-- `AuthTagOptions.from_str`: returns `(hash_count, signature_present)`
and the octet count consumed. -/
def optionsFromStr (value : List Nat) : Option ((Nat × Bool) × Nat) :=
  match value with
  | b :: _ => some ((b >>> 5, (b &&& 16) != 0), 1)
  | [] => none

/-- `pack('>I', n)`: 4-octet big-endian, failing when `n ≥ 2^32`. -/
def packU32 (n : Nat) : Option (List Nat) :=
  if n < 4294967296 then
    some [n / 16777216 % 256, n / 65536 % 256, n / 256 % 256, n % 256]
  else none

/-- `unpack_from('>I', value, ofs)`. -/
def unpackU32 (value : List Nat) (ofs : Nat) : Option Nat :=
  match value.drop ofs with
  | b0 :: b1 :: b2 :: b3 :: _ => some (((b0 * 256 + b1) * 256 + b2) * 256 + b3)
  | _ => none

/-- `pack('>b', o)`: two's-complement octet, failing outside
`[-128, 127]`. -/
def encByte (o : Int) : Option Nat :=
  if -128 ≤ o ∧ o ≤ 127 then some (o % 256).toNat else none

/-- Signed interpretation of a wire octet. -/
def decByte (b : Nat) : Int :=
  if b < 128 then (b : Int) else (b : Int) - 256

/-- `pack('%ds')` pads with zero octets or truncates to the field size. -/
def padTrunc (n : Nat) (l : List Nat) : List Nat :=
  (l ++ List.replicate n 0).take n

/-- The chained-hash records of `AuthTagEO.to_str`: for each pair in
ascending source order, `pack('>b8s', src_index - index, src_hash)`. -/
def encodeEntries (index : Nat) : List (Int × List Nat) → Option (List Nat)
  | [] => some []
  | (src, h) :: rest => do
      let b ← encByte (src - (index : Int))
      let r ← encodeEntries index rest
      some (b :: (padTrunc hash_size h ++ r))

/-- `AuthTagEO._signature_ofs`. -/
def sigOfs (hash_count : Nat) : Nat :=
  1 + 4 + (1 + hash_size) * hash_count

/-- `AuthTagEO.to_str`: options octet, explicit index, chained-hash
records, and (if signalled) a zero-filled signature slot. -/
def tagToStr (t : ModelAuthTag) : Option (List Nat) := do
  let opts ← optionsToStr t.hash_count t.signature_present
  let idx ← packU32 t.index
  let ents ← encodeEntries t.index (chainedHashes t)
  some (opts ++ idx ++ ents ++
    (if t.signature_present then List.replicate signature_len 0 else []))

/-- `AuthTagEO.add_signature`. -/
def addSignature (hash_count : Nat) (payload sig : List Nat) : List Nat :=
  payload.take (sigOfs hash_count) ++ sig ++
    payload.drop (sigOfs hash_count + signature_len)

/-- `AuthTagEO.strip_signature`. -/
def stripSignature (hash_count : Nat) (payload : List Nat) : List Nat :=
  addSignature hash_count payload (List.replicate signature_len 0)

/-- `AuthTag.sign`: reuse the cached signature if present, else sign the
zero-slot serialization and cache the result; overwrite the slot.
Returns the updated tag (the cache is a mutation of the tag) and the
signed serialization. -/
def tagSign (sigfn : List Nat → List Nat) (t : ModelAuthTag) (unsigned : List Nat) :
    ModelAuthTag × List Nat :=
  match t.signature with
  | some s => (t, addSignature t.hash_count unsigned s)
  | none =>
      let s := sigfn unsigned
      ({ t with signature := some s }, addSignature t.hash_count unsigned s)

/-- `AuthTag.verify`: no-op without `signature_present`; otherwise the
key verifies the stripped payload against the cached signature. -/
def tagVerify (sigfn : List Nat → List Nat) (t : ModelAuthTag) (signed : List Nat) : Bool :=
  if t.signature_present then
    decide (t.signature = some (sigfn (stripSignature t.hash_count signed)))
  else true

structure ModelPayload where
  auth_tag : ModelAuthTag
  app_data : List Nat
  signature_valid : Option Bool
deriving Repr, DecidableEq

/-- `ModelPayload.new_by_index` (signature_present iff a signing key is
given). -/
def newByIndex (index : Nat) (signed : Bool) : ModelPayload :=
  ⟨⟨index, 0, signed, [], none⟩, [], none⟩

/-- `ModelPayload.to_str`: tag serialization plus application octets;
when the options signal a signature, `sign` overwrites the zeroed slot
(caching the signature in the tag).  Returns the updated payload and
the serialized octets. -/
def payloadToStr (sigfn : List Nat → List Nat) (p : ModelPayload) :
    Option (ModelPayload × List Nat) := do
  let tagbytes ← tagToStr p.auth_tag
  let pre := tagbytes ++ p.app_data
  if p.auth_tag.signature_present then
    let r := tagSign sigfn p.auth_tag pre
    some ({ p with auth_tag := r.1 }, r.2)
  else
    some (p, pre)

/-- `ModelPayload.hash`: the truncated SHA-256 digest of `to_str()`. -/
def payloadHashM (sigfn : List Nat → List Nat) (p : ModelPayload) :
    Option (ModelPayload × List Nat) :=
  (payloadToStr sigfn p).map fun r => (r.1, truncSHA256 r.2)

/-- Modelled from the spec (for comparison with the code): the canonical
serialization of a payload with the signature slot zeroed, which
`tagToStr` produces directly since it zero-fills the slot. -/
def zeroedSerialization (p : ModelPayload) : Option (List Nat) :=
  (tagToStr p.auth_tag).map (· ++ p.app_data)

/-- Modelled from the spec (for comparison with the code): the payload
hash as the spec describes it, the digest of the canonical
serialization with the signature slot zeroed. -/
def specPayloadHash (p : ModelPayload) : Option (List Nat) :=
  (zeroedSerialization p).map truncSHA256

/-- The chained-hash records of `AuthTagEO.from_str`: `hash_count`
records of `(offset octet, hash octets)`; fails when octets run out
(`unpack_from` checks the buffer length). -/
def parseEntries : Nat → List Nat → Option (List (Nat × List Nat))
  | 0, _ => some []
  | _ + 1, [] => none
  | n + 1, b :: rest =>
      if rest.length < hash_size then none
      else do
        let r ← parseEntries n (rest.drop hash_size)
        some ((b, rest.take hash_size) :: r)

/-- `AuthTagEO.from_str` at the model profile: options octet, explicit
`'>I'` index, `hash_count` offset/hash records written directly into
the hash map (`_hashes[ofs + index] = src_hash`), then the signature
octets when signalled.  Returns the tag and octet count consumed. -/
def authTagEOFromStr (value : List Nat) : Option (ModelAuthTag × Nat) := do
  let ob ← optionsFromStr value
  let hc := ob.1.1
  let sp := ob.1.2
  let idx ← unpackU32 value 1
  let ents ← parseEntries hc (value.drop 5)
  let hashes := ents.foldl (fun m e => aset m (decByte e.1 + (idx : Int)) e.2) []
  let used := 5 + (1 + hash_size) * hc
  if sp then
    if value.length < used + signature_len then none
    else some (⟨idx, hc, sp, hashes, some ((value.drop used).take signature_len)⟩,
      used + signature_len)
  else
    some (⟨idx, hc, sp, hashes, none⟩, used)

/-- `ModelPayload.from_str`: deserialize the tag, verify the signature
when present (`BadSignature` is `none`), attach the remaining octets as
`app_data`, set `signature_valid` iff a signature was verified.
Consumes all supplied octets. -/
def modelPayloadFromStr (sigfn : List Nat → List Nat) (value : List Nat) :
    Option (ModelPayload × Nat) := do
  let tu ← authTagEOFromStr value
  let t := tu.1
  if tagVerify sigfn t value then
    some ({ auth_tag := t, app_data := value.drop tu.2,
            signature_valid := if t.signature_present then some true else none },
      value.length)
  else none

/-- A signature-present model payload at index 0, no chained hashes, no
application octets, with a cached 64-octet signature of ones. -/
def c1Payload : ModelPayload :=
  ⟨⟨0, 0, true, [], some (List.replicate 64 1)⟩, [], none⟩

/-- A deterministic stand-in signing function (unused on `c1Payload`,
whose signature is cached). -/
def c1Sigfn : List Nat → List Nat := fun _ => List.replicate 64 1

/-- A producer-shaped signed payload for the round-trip witness: index
1, one chained hash (source 2), two application octets, signature not
yet computed. -/
def c4Payload : ModelPayload :=
  ⟨⟨1, 1, true, [(2, List.replicate 8 170)], none⟩, [5, 6], none⟩

/-- A deterministic stand-in signing function returning 64 octets. -/
def c4Sigfn : List Nat → List Nat := fun _ => List.replicate 64 7

/-! ## Producer (`alta/producer.py`)

The producer's payload objects are mutated in place (chained hashes are
added until emission); the embedding threads the stream explicitly.
The payload hash function is a parameter (`ModelPayload.hash` in the
model profile), as is the scheme (duck-typed in the source). -/

structure ProdPayload where
  index : Nat
  chained : List (Int × List Nat)
  app_data : List Nat
deriving Repr, DecidableEq

inductive HashEntry where
  | pending
  | val (h : List Nat)
deriving Repr, DecidableEq

/-- The duck-typed scheme interface the producer consumes
(`sources`, `is_ready`, `in_write_window`). -/
structure SchemeI where
  sources : Int → Option Int → Option Int → List Int
  is_ready : Nat → Nat → Bool
  in_write_window : Int → Nat → Bool

/-- The augmented scheme as a producer scheme. -/
def augSchemeI (sd : AugScheme) : SchemeI :=
  ⟨fun i f l => sd.sources i f l,
   fun e l => sd.is_ready (e : Int) (l : Int),
   fun q l => sd.in_write_window q (l : Int)⟩

structure Producer where
  stream : List ProdPayload
  hashes : List (Int × HashEntry)
  next_index : Nat
  last_index : Option Nat
deriving Repr, DecidableEq

def producerInit : Producer := ⟨[], [], 0, none⟩

/-- Python truthiness of `self._last_index`: falsy when unset (`None`)
and also when 0 — the source checks `if self._last_index:` throughout,
which is the root of the shutdown-at-index-0 defect. -/
def truthy : Option Nat → Bool
  | none => false
  | some 0 => false
  | some (_ + 1) => true

inductive PErr where
  | pending
  | schemeError
  | outOfOrder
  | outOfRange
  | indexError
  | overwriteHash
  | fuelOut
deriving Repr, DecidableEq

/-- `Producer._latest_index`. -/
def latestIndex (s : Producer) : Except PErr Nat :=
  if truthy s.last_index then .ok (s.last_index.getD 0)
  else match s.stream.getLast? with
    | none => .error .outOfRange
    | some p => .ok p.index

/-- `Producer._earliest_index`. -/
def earliestIndex (s : Producer) : Except PErr Nat :=
  match s.stream with
  | [] => .error .outOfRange
  | p :: _ => .ok p.index

/-- `Producer._get_payload` (`OutOfRange` is converted to
`IndexError`). -/
def getPayloadP (s : Producer) (i : Int) : Except PErr ProdPayload :=
  match earliestIndex s, latestIndex s with
  | .ok e, .ok l =>
      if (e : Int) ≤ i ∧ i ≤ (l : Int) then
        match s.stream.get? (i - (e : Int)).toNat with
        | some p => .ok p
        | none => .error .indexError
      else .error .indexError
  | _, _ => .error .indexError

/-- Chain a hash into the stream payload at the given position
(`p.auth_tag.chain_payload_hash`, guarded by `get_chained_hash` at the
call site so it never overwrites). -/
def updateStream (stream : List ProdPayload) (pos : Nat) (src : Int) (h : List Nat) :
    List ProdPayload :=
  match stream.get? pos with
  | some p => stream.set pos { p with chained := p.chained ++ [(src, h)] }
  | none => stream

/-- The mutually recursive producer internals, fueled so the definition
is structural: `hash i` is `_payload_hash`, `compute i` is
`_compute_payload_hash`, and `srcLoop` is its loop over
`scheme.sources(i, 0, last_index)` carrying the `incomplete` flag.
Fuel decreases on every call; call sites pass enough for any
terminating recursion, and exhaustion reports `fuelOut` (the Python
recursion is unbounded). -/
inductive PHCall where
  | hash (i : Int)
  | compute (i : Int)
  | srcLoop (i : Int) (srcs : List Int) (incomplete : Bool)
deriving Repr, DecidableEq

def phRun (sch : SchemeI) (hashFn : ProdPayload → List Nat) :
    Nat → Producer → PHCall → Producer × Except PErr (List Nat)
  | 0, s, _ => (s, .error .fuelOut)
  | fuel + 1, s, .hash i =>
      match alookup s.hashes i with
      | some .pending => (s, .error .schemeError)
      | some (.val h) => (s, .ok h)
      | none =>
          match earliestIndex s with
          | .error e => (s, .error e)
          | .ok e =>
              if i < (e : Int) ∨ (truthy s.last_index ∧ ((s.last_index.getD 0 : Nat) : Int) < i)
              then (s, .error .indexError)
              else match latestIndex s with
                | .error er => (s, .error er)
                | .ok l =>
                    if (l : Int) < i then (s, .error .pending)
                    else
                      match phRun sch hashFn fuel
                          { s with hashes := aset s.hashes i .pending } (.compute i) with
                      | (s2, .ok h) =>
                          ({ s2 with hashes := aset s2.hashes i (.val h) }, .ok h)
                      | (s2, .error er) =>
                          ({ s2 with hashes := aerase s2.hashes i }, .error er)
  | fuel + 1, s, .compute i =>
      match getPayloadP s i with
      | .error er => (s, .error er)
      | .ok _ =>
          phRun sch hashFn fuel s
            (.srcLoop i (sch.sources i (some 0) (s.last_index.map fun n => (n : Int))) false)
  | _ + 1, s, .srcLoop i [] incomplete =>
      if incomplete then (s, .error .pending)
      else match getPayloadP s i with
        | .ok p => (s, .ok (hashFn p))
        | .error er => (s, .error er)
  | fuel + 1, s, .srcLoop i (src :: rest) incomplete =>
      match getPayloadP s i with
      | .error er => (s, .error er)
      | .ok p =>
          -- `if not p.auth_tag.get_chained_hash(src_index)`: an absent key and
          -- an empty stored hash are both falsy; `chain_payload_hash` still
          -- raises OverwriteHashError on any present key.
          if (alookup p.chained src).getD [] ≠ [] then
            phRun sch hashFn fuel s (.srcLoop i rest incomplete)
          else match phRun sch hashFn fuel s (.hash src) with
            | (s', .ok h) =>
                if (alookup p.chained src).isSome then (s', .error .overwriteHash)
                else match earliestIndex s' with
                  | .ok e =>
                      phRun sch hashFn fuel
                        { s' with stream := updateStream s'.stream (i - (e : Int)).toNat src h }
                        (.srcLoop i rest incomplete)
                  | .error er => (s', .error er)
            | (s', .error .pending) => phRun sch hashFn fuel s' (.srcLoop i rest true)
            | (s', .error er) => (s', .error er)

/-- Fuel over-approximating the depth of the hash recursion. -/
def phFuel (sch : SchemeI) (s : Producer) : Nat :=
  3 + (s.stream.map fun p =>
    (sch.sources (p.index : Int) (some 0) (s.last_index.map fun n => (n : Int))).length + 3).sum

/-- `Producer.push_payload`: requires the next in-order index, appends
to the stream, and attempts the hash computation, swallowing
`Pending`. -/
def pushPayloadP (sch : SchemeI) (hashFn : ProdPayload → List Nat)
    (s : Producer) (p : ProdPayload) : Producer × Except PErr Unit :=
  if p.index ≠ s.next_index then (s, .error .outOfOrder)
  else
    match phRun sch hashFn
        (phFuel sch { s with stream := s.stream ++ [p], next_index := s.next_index + 1 })
        { s with stream := s.stream ++ [p], next_index := s.next_index + 1 }
        (.hash p.index) with
    | (s2, .ok _) => (s2, .ok ())
    | (s2, .error .pending) => (s2, .ok ())
    | (s2, .error er) => (s2, .error er)

/-- `Producer._expire_old_state`: after shutdown clear the hash cache;
otherwise drop hashes outside the write window (`_latest_index` is only
evaluated when the cache is non-empty, and raises on an empty
stream). -/
def expireP (sch : SchemeI) (s : Producer) : Producer × Option PErr :=
  if truthy s.last_index then ({ s with hashes := [] }, none)
  else if s.hashes = [] then (s, none)
  else match latestIndex s with
    | .error _ => (s, some .outOfRange)
    | .ok l => ({ s with hashes := s.hashes.filter fun e => sch.in_write_window e.1 l }, none)

/-- The loop of `Producer.payloads_ready`: while the stream is
non-empty and (`self._last_index` is truthy or the scheme says the
front is ready), finalize the front payload's hash (a `Pending` there
is a `SchemeError`) and yield it; afterwards expire old state. -/
def readyLoop (sch : SchemeI) (hashFn : ProdPayload → List Nat) :
    Nat → Producer → List ProdPayload → Producer × List ProdPayload × Option PErr
  | 0, s, acc => (s, acc, some .fuelOut)
  | fuel + 1, s, acc =>
      match s.stream with
      | [] => ((expireP sch s).1, acc, (expireP sch s).2)
      | front :: _ =>
          if truthy s.last_index ||
              (match latestIndex s with
                | .ok l => sch.is_ready front.index l
                | .error _ => false) then
            match phRun sch hashFn (phFuel sch s) s (.hash front.index) with
            | (s', .ok _) =>
                match s'.stream with
                | [] => (s', acc, some .indexError)
                | q :: rest => readyLoop sch hashFn fuel { s' with stream := rest } (acc ++ [q])
            | (s', .error .pending) => (s', acc, some .schemeError)
            | (s', .error er) => (s', acc, some er)
          else ((expireP sch s).1, acc, (expireP sch s).2)

/-- `Producer.payloads_ready`, drained fully. -/
def payloadsReadyP (sch : SchemeI) (hashFn : ProdPayload → List Nat) (s : Producer) :
    Producer × List ProdPayload × Option PErr :=
  readyLoop sch hashFn (s.stream.length + 1) s []

/-- `Producer.shutdown`. -/
def shutdownP (s : Producer) : Producer × Except PErr Unit :=
  match latestIndex s with
  | .ok l => ({ s with last_index := some l }, .ok ())
  | .error e => (s, .error e)

inductive POp where
  | push (p : ProdPayload)
  | shutdown
  | ready
deriving Repr, DecidableEq

/-- One producer API call; yields are collected for `ready`. -/
def pstep (sch : SchemeI) (hashFn : ProdPayload → List Nat) (s : Producer) :
    POp → Producer × List ProdPayload
  | .push p => ((pushPayloadP sch hashFn s p).1, [])
  | .shutdown => ((shutdownP s).1, [])
  | .ready => ((payloadsReadyP sch hashFn s).1, (payloadsReadyP sch hashFn s).2.1)

/-- Run a producer over a sequence of API calls from the initial state,
collecting every yielded payload across the lifetime. -/
def runProducer (sch : SchemeI) (hashFn : ProdPayload → List Nat) (ops : List POp) :
    Producer × List ProdPayload :=
  ops.foldl (fun acc op =>
    ((pstep sch hashFn acc.1 op).1, acc.2 ++ (pstep sch hashFn acc.1 op).2))
    (producerInit, [])

/-- The scheme `AugmentedScheme(a=1, p=3)` as a producer scheme. -/
def sch13 : SchemeI := augSchemeI ((mkAugScheme 1 3).getD ⟨0, 0, [], []⟩)

/-- A concrete payload hash function for producer runs. -/
def c5HashFn : ProdPayload → List Nat := fun p => p.app_data ++ [p.index % 256]

/-! ## Consumer (`alta/consumer.py`)

The consumer reads four things from a payload: `index`, `hash()`,
`signature_valid` (truthy iff `True`), and
`auth_tag.chained_hashes`.  `CPayload` is that observation;
`observe` extracts it from a model payload. -/

structure CPayload where
  index : Int
  hash : List Nat
  signature_valid : Bool
  chained : List (Int × List Nat)
deriving Repr, DecidableEq

/-- The consumer-visible observation of a model payload (`none` when
serialization fails). -/
def observe (sigfn : List Nat → List Nat) (p : ModelPayload) : Option CPayload :=
  (payloadHashM sigfn p).map fun r =>
    ⟨(p.auth_tag.index : Int), r.2, p.signature_valid = some true,
      chainedHashes r.1.auth_tag⟩

structure Consumer where
  pre_lv_window : Nat
  post_lv_window : Nat
  payloads : List (Int × CPayload)
  verified_hashes : List (Int × List Nat)
  latest_verified_index : Int
deriving Repr, DecidableEq

/-- `Consumer.__init__`. -/
def consumerInit (pre_lv_window post_lv_window : Nat) : Consumer :=
  ⟨pre_lv_window, post_lv_window, [], [], 0⟩

/-- The consumer's error reports (`print('ERROR: ...')` in the source):
a newly received payload conflicting with a previously verified hash, a
previously received payload conflicting with a newly verified hash, and
the conflict report of `payloads_ready`. -/
inductive CEvent where
  | hashMismatchNew (index : Int)
  | hashMismatchSet (index : Int)
  | hashMismatchReady (index : Int)
deriving Repr, DecidableEq

/-- The two mutually recursive consumer internals `_set_verified` and
`_extend_verification`, fueled so the definition is structural (the
fuel decreases on every call; call sites pass enough fuel that it never
runs out, since each nested `_set_verified` call consumes a fresh
unset key drawn from the finite chained-hash lists). -/
inductive SVCall where
  | setv (index : Int) (hash_value : List Nat)
  | extend (hlist : List (Int × List Nat))
deriving Repr, DecidableEq

/-- `Consumer._set_verified` / `Consumer._extend_verification`:
`setv index h` records `h` as verified for `index`, bumps
`latest_verified_index`, and, when the stored payload at `index` has
that very hash, extends verification along its chained hashes
(`extend`); a stored payload with a different hash yields a mismatch
event.  `extend` walks the chained pairs, recursing into `setv` for
each non-empty hash whose source index is not yet verified. -/
def svRun : Nat → Consumer → SVCall → Consumer × List CEvent
  | 0, s, _ => (s, [])
  | fuel + 1, s, .setv index hash_value =>
      let s1 : Consumer := { s with
        verified_hashes := aset s.verified_hashes index hash_value,
        latest_verified_index := if s.latest_verified_index < index then index
          else s.latest_verified_index }
      match alookup s1.payloads index with
      | none => (s1, [])
      | some p =>
          if hash_value = p.hash then svRun fuel s1 (.extend p.chained)
          else (s1, [.hashMismatchSet index])
  | _ + 1, s, .extend [] => (s, [])
  | fuel + 1, s, .extend ((src, ch) :: rest) =>
      if ch ≠ [] ∧ (alookup s.verified_hashes src) = none then
        let r1 := svRun fuel s (.setv src ch)
        let r2 := svRun fuel r1.1 (.extend rest)
        (r2.1, r1.2 ++ r2.2)
      else svRun fuel s (.extend rest)

/-- Fuel that over-approximates the recursion depth of
`_set_verified`: two levels per stored payload plus one per chained
entry suffices, since every nested call claims a fresh unset key. -/
def consumerFuel (s : Consumer) : Nat :=
  2 + (s.payloads.map fun e => e.2.chained.length + 2).sum

/-- `Consumer._expire_old_state`: drop every entry of either map whose
key is outside
`[latest_verified_index - pre_lv_window, latest_verified_index + post_lv_window]`. -/
def expireOldState (s : Consumer) : Consumer :=
  { s with
    payloads := s.payloads.filter fun e =>
      decide (s.latest_verified_index - (s.pre_lv_window : Int) ≤ e.1) &&
      decide (e.1 ≤ s.latest_verified_index + (s.post_lv_window : Int)),
    verified_hashes := s.verified_hashes.filter fun e =>
      decide (s.latest_verified_index - (s.pre_lv_window : Int) ≤ e.1) &&
      decide (e.1 ≤ s.latest_verified_index + (s.post_lv_window : Int)) }

/-- `Consumer.push_payload`. -/
def pushPayload (s : Consumer) (p : CPayload) (assume_verified : Bool) :
    Consumer × List CEvent :=
  let s1 : Consumer := { s with payloads := asetdefault s.payloads p.index p }
  let h := p.hash
  let vh := alookup s1.verified_hashes p.index
  let ev0 := if vh ≠ none ∧ vh ≠ some h then [CEvent.hashMismatchNew p.index] else []
  let r := if assume_verified || p.signature_valid || decide (vh = some h) then
      svRun (consumerFuel s1) s1 (.setv p.index h)
    else (s1, [])
  (expireOldState r.1, ev0 ++ r.2)

/-- Well-formedness of a consumer state, maintained by every operation:
both maps have duplicate-free keys (they embed Python dicts) and each
stored payload is keyed by its own index. -/
def consumerWF (s : Consumer) : Prop :=
  (s.payloads.map Prod.fst).Nodup ∧
  (s.verified_hashes.map Prod.fst).Nodup ∧
  ∀ e ∈ s.payloads, e.1 = e.2.index

instance (s : Consumer) : Decidable (consumerWF s) :=
  inferInstanceAs (Decidable (_ ∧ _ ∧ _))

/-- `Consumer.payloads_ready`: report payloads conflicting with their
verified hash, yield (in ascending index order) payloads matching their
verified hash, keep the rest. -/
def payloadsReady (s : Consumer) : Consumer × List CPayload × List CEvent :=
  let bad := s.payloads.filter fun e =>
    decide (alookup s.verified_hashes e.1 ≠ none ∧
      alookup s.verified_hashes e.1 ≠ some e.2.hash)
  let ready := s.payloads.filter fun e =>
    decide (alookup s.verified_hashes e.1 = some e.2.hash)
  let remaining := s.payloads.filter fun e =>
    !(decide (alookup s.verified_hashes e.1 = some e.2.hash)) &&
    !(decide (alookup s.verified_hashes e.1 ≠ none ∧
        alookup s.verified_hashes e.1 ≠ some e.2.hash))
  ({ s with payloads := remaining }, (sortPairs ready).map Prod.snd,
    bad.map fun e => CEvent.hashMismatchReady e.1)

end Alta

/-- Claim C2, counterexample: for `AugmentedScheme(a=3, p=5)`,
`sources(0, first=0)` is `[1]` (the forward-chained source from the
class-1 node), not the empty list the claim states. -/
theorem C2_sources0_counterexample :
    Alta.augSources 3 5 0 (some 0) none = some [1] ∧
    Alta.augSources 3 5 0 (some 0) none ≠ some [] := by
  decide

/-- Claim C2 (amended): for `AugmentedScheme(a=3, p=5)`,
`doffsets[0] = [5, 15]`, `doffsets` has exactly five entries (the
remaining four produced by two `augment` steps of the period
construction), and `sources(0, first=0)` returns `[1]`. -/
theorem C2_augmented_scheme_3_5 :
    (Alta.mkAugScheme 3 5).map Alta.AugScheme.doffsets =
      some [[5, 15], [-1, 4], [-1, 2], [-1, 1], [-3, 1]] ∧
    ((Alta.mkAugScheme 3 5).map fun s => s.doffsets.length) = some 5 ∧
    Alta.augSources 3 5 0 (some 0) none = some [1] := by
  decide

/-- Claim C9, counterexample: for `AugmentedScheme(a=1, p=1)`,
`sources(1)` is `[0, 0]` (the duplicate entry of `doffsets = [[1, 1]]`
is not deduplicated), not `[0]` as the claim states. -/
theorem C9_sources_counterexample :
    Alta.augSources 1 1 1 none none = some [0, 0] ∧
    Alta.augSources 1 1 1 none none ≠ some [0] := by
  decide

/-- Claim C9 (amended): for `AugmentedScheme(a=1, p=1)`,
`doffsets = [[1, 1]]` and, for every index `i ≥ 1`, `sources(i)`
returns `[i-1, i-1]` (the duplicate destination offset produces a
duplicated source). -/
theorem C9_scheme_1_1 :
    (Alta.mkAugScheme 1 1).map Alta.AugScheme.doffsets = some [[1, 1]] ∧
    ∀ i : Int, 1 ≤ i → Alta.augSources 1 1 i none none = some [i - 1, i - 1] := by
  refine ⟨by decide, fun i _ => ?_⟩
  have h11 : Alta.mkAugScheme 1 1 = some ⟨1, 1, [[1, 1]], [[-1, -1]]⟩ := by decide
  simp [Alta.augSources, h11, Alta.AugScheme.sources, Int.emod_one,
    Alta.sortInts, List.insertionSort, List.orderedInsert, Alta.clipOk]
  omega

/-- Claim C9 witness: the amended source list at the concrete index 4. -/
theorem C9_scheme_1_1_witness :
    (1 : Int) ≤ 4 ∧ Alta.augSources 1 1 4 none none = some [3, 3] :=
  ⟨by decide, C9_scheme_1_1.2 4 (by decide)⟩

/-- Serialization of an authentication tag never reads the cached
signature (the slot is zero-filled pending signing), so updating the
cache leaves `to_str` unchanged. -/
theorem tagToStr_signature_irrel (t : Alta.ModelAuthTag) (s : Option (List Nat)) :
    Alta.tagToStr { t with signature := s } = Alta.tagToStr t := rfl

/-- Serialization of an authentication tag depends only on the index,
hash count, signature flag, and hash map. -/
theorem tagToStr_congr (t t' : Alta.ModelAuthTag)
    (h1 : t.index = t'.index) (h2 : t.hash_count = t'.hash_count)
    (h3 : t.signature_present = t'.signature_present) (h4 : t.hashes = t'.hashes) :
    Alta.tagToStr t = Alta.tagToStr t' := by
  simp only [Alta.tagToStr, Alta.chainedHashes, h1, h2, h3, h4]

/-- `ModelPayload.to_str` on a payload whose signature is already
cached splices the cached signature and leaves the payload unchanged. -/
theorem payloadToStr_of_cached (sigfn : List Nat → List Nat)
    (q : Alta.ModelPayload) (s : List Nat)
    (hq : q.auth_tag.signature = some s)
    (hsp : q.auth_tag.signature_present = true)
    (tb : List Nat) (htb : Alta.tagToStr q.auth_tag = some tb) :
    Alta.payloadToStr sigfn q =
      some (q, Alta.addSignature q.auth_tag.hash_count (tb ++ q.app_data) s) := by
  simp [Alta.payloadToStr, htb, hsp, Alta.tagSign, hq]

/-- `ModelPayload.to_str` on a signature-present payload with no cached
signature: the signature is computed over the zero-slot form, cached in
the tag, and spliced into the slot. -/
theorem payloadToStr_of_uncached (sigfn : List Nat → List Nat)
    (p : Alta.ModelPayload)
    (hs : p.auth_tag.signature = none)
    (hsp : p.auth_tag.signature_present = true)
    (tb : List Nat) (htb : Alta.tagToStr p.auth_tag = some tb) :
    Alta.payloadToStr sigfn p = some
      (⟨⟨p.auth_tag.index, p.auth_tag.hash_count, p.auth_tag.signature_present,
          p.auth_tag.hashes, some (sigfn (tb ++ p.app_data))⟩,
        p.app_data, p.signature_valid⟩,
       Alta.addSignature p.auth_tag.hash_count (tb ++ p.app_data)
         (sigfn (tb ++ p.app_data))) := by
  simp [Alta.payloadToStr, htb, hsp, Alta.tagSign, hs]

/-- `ModelPayload.to_str` is idempotent: serializing the payload state
it returns reproduces the same payload state and octets (the signature
is cached on the first call and reused afterwards). -/
theorem payloadToStr_idem (sigfn : List Nat → List Nat)
    (p p' : Alta.ModelPayload) (bytes : List Nat)
    (h : Alta.payloadToStr sigfn p = some (p', bytes)) :
    Alta.payloadToStr sigfn p' = some (p', bytes) := by
  cases htb : Alta.tagToStr p.auth_tag with
  | none => simp [Alta.payloadToStr, htb] at h
  | some tb =>
    cases hsp : p.auth_tag.signature_present with
    | false =>
        have hcomp : Alta.payloadToStr sigfn p = some (p, tb ++ p.app_data) := by
          simp [Alta.payloadToStr, htb, hsp]
        rw [hcomp] at h
        simp only [Option.some.injEq, Prod.mk.injEq] at h
        obtain ⟨h1, h2⟩ := h
        subst h1; subst h2
        exact hcomp
    | true =>
      cases hs : p.auth_tag.signature with
      | some s =>
          have hcomp := payloadToStr_of_cached sigfn p s hs hsp tb htb
          rw [hcomp] at h
          simp only [Option.some.injEq, Prod.mk.injEq] at h
          obtain ⟨h1, h2⟩ := h
          subst h1; subst h2
          exact hcomp
      | none =>
          have hcomp := payloadToStr_of_uncached sigfn p hs hsp tb htb
          rw [hcomp] at h
          simp only [Option.some.injEq, Prod.mk.injEq] at h
          obtain ⟨h1, h2⟩ := h
          subst h1; subst h2
          exact payloadToStr_of_cached sigfn
            ⟨⟨p.auth_tag.index, p.auth_tag.hash_count, p.auth_tag.signature_present,
                p.auth_tag.hashes, some (sigfn (tb ++ p.app_data))⟩,
              p.app_data, p.signature_valid⟩
            (sigfn (tb ++ p.app_data)) rfl hsp tb htb

/-- For a signature-present payload, `to_str` produces the zero-slot
serialization with the signature (cached or computed by the key)
spliced into the slot. -/
theorem payloadToStr_signed (sigfn : List Nat → List Nat) (p : Alta.ModelPayload)
    (hsp : p.auth_tag.signature_present = true)
    (tb : List Nat) (htb : Alta.tagToStr p.auth_tag = some tb) :
    ∃ p', Alta.payloadToStr sigfn p = some (p',
      Alta.addSignature p.auth_tag.hash_count (tb ++ p.app_data)
        (p.auth_tag.signature.getD (sigfn (tb ++ p.app_data)))) := by
  cases hs : p.auth_tag.signature with
  | some s =>
      exact ⟨p, by simp [Alta.payloadToStr, htb, hsp, Alta.tagSign, hs]⟩
  | none =>
      refine ⟨{ p with auth_tag :=
        { p.auth_tag with signature := some (sigfn (tb ++ p.app_data)) } }, ?_⟩
      simp [Alta.payloadToStr, htb, hsp, Alta.tagSign, hs]

/-- Claim C1, counterexample: `ModelPayload.hash` digests `to_str()`,
which for a signature-present payload contains the actual signature,
not a zeroed slot, so the hash differs from the digest of the
zero-slot canonical serialization. -/
theorem C1_hash_counterexample :
    (Alta.payloadHashM Alta.c1Sigfn Alta.c1Payload).map Prod.snd ≠
      Alta.specPayloadHash Alta.c1Payload := by
  decide

/-- Claim C1 (amended): for a signature-present payload, `hash(p)` is
the digest of the canonical serialization with the signature (cached,
or computed by the key over the zero-slot form) written into the slot;
and the hash is invariant under the signing that `to_str` performs:
recomputing the hash after `to_str` has signed and cached the signature
gives the same digest. -/
theorem C1_hash_signed_serialization
    (sigfn : List Nat → List Nat) (p : Alta.ModelPayload)
    (hsp : p.auth_tag.signature_present = true)
    (pre : List Nat) (hpre : Alta.zeroedSerialization p = some pre) :
    (Alta.payloadHashM sigfn p).map Prod.snd =
      some (Alta.truncSHA256 (Alta.addSignature p.auth_tag.hash_count pre
        (p.auth_tag.signature.getD (sigfn pre)))) ∧
    ∀ p' bytes, Alta.payloadToStr sigfn p = some (p', bytes) →
      (Alta.payloadHashM sigfn p').map Prod.snd =
        (Alta.payloadHashM sigfn p).map Prod.snd := by
  simp only [Alta.zeroedSerialization, Option.map_eq_some'] at hpre
  obtain ⟨tb, htb, rfl⟩ := hpre
  obtain ⟨p', hts⟩ := payloadToStr_signed sigfn p hsp tb htb
  refine ⟨by simp [Alta.payloadHashM, hts], ?_⟩
  intro q bytes hq
  rw [hts] at hq
  simp only [Option.some.injEq, Prod.mk.injEq] at hq
  obtain ⟨hq1, hq2⟩ := hq
  subst hq1
  have hidem := payloadToStr_idem sigfn p p' _ hts
  simp [Alta.payloadHashM, hts, hidem]

/-- Claim C1 witness: the amended statement applied to the concrete
signature-present payload `Alta.c1Payload`. -/
theorem C1_hash_signed_serialization_witness :
    Alta.c1Payload.auth_tag.signature_present = true ∧
    Alta.zeroedSerialization Alta.c1Payload =
      some ([16, 0, 0, 0, 0] ++ List.replicate 64 0) ∧
    (Alta.payloadHashM Alta.c1Sigfn Alta.c1Payload).map Prod.snd =
      some (Alta.truncSHA256 (Alta.addSignature Alta.c1Payload.auth_tag.hash_count
        ([16, 0, 0, 0, 0] ++ List.replicate 64 0)
        (Alta.c1Payload.auth_tag.signature.getD
          (Alta.c1Sigfn ([16, 0, 0, 0, 0] ++ List.replicate 64 0))))) :=
  ⟨rfl, by decide,
    (C1_hash_signed_serialization Alta.c1Sigfn Alta.c1Payload rfl _ (by decide)).1⟩

/-! ### Serialization lemmas for the wire codec -/

instance {α : Type} : IsTotal (Int × α) Alta.pairLE :=
  ⟨fun a b => le_total a.1 b.1⟩

instance {α : Type} : IsTrans (Int × α) Alta.pairLE :=
  ⟨fun _ _ _ h1 h2 => le_trans h1 h2⟩

/-- Re-sorting the sorted hash map is the identity. -/
theorem sortPairs_idem {α : Type} (l : List (Int × α)) :
    Alta.sortPairs (Alta.sortPairs l) = Alta.sortPairs l :=
  (List.sorted_insertionSort Alta.pairLE l).insertionSort_eq

/-- The sorted hash map has the same key multiset as the original. -/
theorem sortPairs_perm {α : Type} (l : List (Int × α)) :
    (Alta.sortPairs l).Perm l :=
  List.perm_insertionSort Alta.pairLE l

/-- A 4-octet big-endian index below `2^32` encodes and decodes to
itself, whatever octets follow. -/
theorem packU32_eq (n : Nat) (hn : n < 4294967296) :
    Alta.packU32 n = some [n / 16777216 % 256, n / 65536 % 256, n / 256 % 256, n % 256] := by
  simp [Alta.packU32, hn]

theorem unpack_pack_u32 (n : Nat) (hn : n < 4294967296) (rest : List Nat) :
    Alta.unpackU32 ([n / 16777216 % 256, n / 65536 % 256, n / 256 % 256, n % 256] ++ rest)
      0 = some n := by
  simp only [Alta.unpackU32, List.cons_append, List.nil_append, List.drop_zero]
  congr 1
  omega

/-- A signed offset octet in `[-128, 127]` encodes and decodes to
itself. -/
theorem encByte_eq (o : Int) (h1 : -128 ≤ o) (h2 : o ≤ 127) :
    Alta.encByte o = some (o % 256).toNat := by
  simp [Alta.encByte, h1, h2]

theorem decByte_enc (o : Int) (h1 : -128 ≤ o) (h2 : o ≤ 127) :
    Alta.decByte (o % 256).toNat = o := by
  rw [Alta.decByte]
  split <;> omega

theorem padTrunc_length (n : Nat) (l : List Nat) :
    (Alta.padTrunc n l).length = n := by
  simp [Alta.padTrunc]

theorem padTrunc_of_length (n : Nat) (l : List Nat) (h : l.length = n) :
    Alta.padTrunc n l = l := by
  simp [Alta.padTrunc, List.take_left' h]

/-- The options octet round trip for `hash_count ≤ 7`. -/
theorem options_roundtrip (hc : Nat) (sp : Bool) (hhc : hc ≤ 7) :
    ∃ b, Alta.optionsToStr hc sp = some [b] ∧
      ∀ rest, Alta.optionsFromStr (b :: rest) = some ((hc, sp), 1) := by
  interval_cases hc <;> cases sp <;> exact ⟨_, rfl, fun _ => rfl⟩

/-- Looking up a key that is absent from the front part of an
association list continues into the back part. -/
theorem alookup_append {α : Type} (m m' : List (Int × α)) (k : Int)
    (h : Alta.alookup m k = none) :
    Alta.alookup (m ++ m') k = Alta.alookup m' k := by
  induction m with
  | nil => rfl
  | cons x t ih =>
      rw [Alta.alookup] at h
      rw [List.cons_append, Alta.alookup]
      split at h
      · exact absurd h (by simp)
      · rw [if_neg (by assumption)]
        exact ih h

/-- Assigning a fresh key appends the pair. -/
theorem aset_fresh {α : Type} (m : List (Int × α)) (k : Int) (v : α)
    (h : Alta.alookup m k = none) :
    Alta.aset m k v = m ++ [(k, v)] := by
  induction m with
  | nil => rfl
  | cons x t ih =>
      rw [Alta.alookup] at h
      rw [Alta.aset]
      split at h
      · exact absurd h (by simp)
      · rw [if_neg (fun he => by simp [he] at *), List.cons_append]
        congr 1
        exact ih h

/-- Encoding the chained-hash records succeeds for in-range offsets,
produces 9 octets per record, and parsing them back (whatever octets
follow) recovers the offset octets and the 8-octet hash fields. -/
theorem encodeEntries_spec (idx : Nat) (ents : List (Int × List Nat))
    (hr : ∀ e ∈ ents, -128 ≤ e.1 - (idx : Int) ∧ e.1 - (idx : Int) ≤ 127) :
    ∃ bs, Alta.encodeEntries idx ents = some bs ∧
      bs.length = 9 * ents.length ∧
      ∀ rest, Alta.parseEntries ents.length (bs ++ rest) =
        some (ents.map fun e => (((e.1 - (idx : Int)) % 256).toNat, Alta.padTrunc 8 e.2)) := by
  induction ents with
  | nil => exact ⟨[], rfl, rfl, fun _ => rfl⟩
  | cons e t ih =>
      obtain ⟨h1, h2⟩ := hr e (List.mem_cons_self _ _)
      obtain ⟨bs, hbs, hlen, hparse⟩ := ih (fun x hx => hr x (List.mem_cons_of_mem _ hx))
      refine ⟨((e.1 - (idx : Int)) % 256).toNat :: (Alta.padTrunc 8 e.2 ++ bs), ?_, ?_, ?_⟩
      · obtain ⟨src, h⟩ := e
        simp only [Alta.encodeEntries, Option.bind_eq_bind]
        rw [encByte_eq _ h1 h2, hbs]
        simp [Alta.hash_size]
      · simp only [List.length_cons, List.length_append, padTrunc_length, List.length_map,
          hlen]
        omega
      · intro rest
        rw [List.cons_append, List.append_assoc, List.length_cons, Alta.parseEntries]
        rw [if_neg (by simp [Alta.hash_size, padTrunc_length])]
        have htake : (Alta.padTrunc 8 e.2 ++ (bs ++ rest)).take Alta.hash_size =
            Alta.padTrunc 8 e.2 := List.take_left' (padTrunc_length 8 e.2)
        have hdrop : (Alta.padTrunc 8 e.2 ++ (bs ++ rest)).drop Alta.hash_size =
            bs ++ rest := List.drop_left' (padTrunc_length 8 e.2)
        rw [htake, hdrop, hparse rest]
        rfl

/-- Folding the records that `from_str` parsed from an encoded tag into
an empty hash map (via `aset` with the decoded source index) rebuilds
exactly the encoded (sorted, duplicate-free) map. -/
theorem fromStr_fold (idx : Nat) (ents : List (Int × List Nat)) :
    ∀ (m : List (Int × List Nat)),
      (∀ e ∈ ents, -128 ≤ e.1 - (idx : Int) ∧ e.1 - (idx : Int) ≤ 127 ∧
        e.2.length = 8 ∧ Alta.alookup m e.1 = none) →
      (ents.map Prod.fst).Nodup →
      ((ents.map fun e => (((e.1 - (idx : Int)) % 256).toNat, Alta.padTrunc 8 e.2)).foldl
        (fun m e => Alta.aset m (Alta.decByte e.1 + (idx : Int)) e.2) m) = m ++ ents := by
  induction ents with
  | nil => intro m _ _; simp
  | cons e t ih =>
      intro m hmem hnd
      obtain ⟨h1, h2, hlen, hfresh⟩ := hmem e (List.mem_cons_self _ _)
      have hkey : Alta.decByte (((e.1 - (idx : Int)) % 256).toNat) + (idx : Int) = e.1 := by
        rw [decByte_enc _ h1 h2]; ring
      simp only [List.map_cons, List.foldl_cons, hkey, padTrunc_of_length _ _ hlen]
      rw [aset_fresh _ _ _ hfresh]
      have hnd' := hnd
      rw [List.map_cons, List.nodup_cons] at hnd'
      rw [ih (m ++ [(e.1, e.2)]) ?_ hnd'.2]
      · simp
      · intro x hx
        obtain ⟨x1, x2, x3, x4⟩ := hmem x (List.mem_cons_of_mem _ hx)
        refine ⟨x1, x2, x3, ?_⟩
        rw [alookup_append _ _ _ x4, Alta.alookup]
        rw [if_neg ?_]
        · rfl
        · intro hk
          exact hnd'.1 (hk ▸ List.mem_map_of_mem Prod.fst hx)

theorem unpackU32_cons (x : Nat) (l : List Nat) (n : Nat) :
    Alta.unpackU32 (x :: l) (n + 1) = Alta.unpackU32 l n := rfl

/-- `AuthTagEO.from_str` on a wire image assembled from an options
octet, a packed index, encoded records, and arbitrary trailing octets:
the options and index decode, the records are folded into the hash map,
and the signature octets (when signalled) are read past the records. -/
theorem tagFromStr_core (hc : Nat) (sp : Bool) (idx : Nat) (b : Nat)
    (hoptp : ∀ rest, Alta.optionsFromStr (b :: rest) = some ((hc, sp), 1))
    (hidx : idx < 4294967296)
    (parsed : List (Nat × List Nat)) (ebs : List Nat)
    (hlen : ebs.length = 9 * hc)
    (hparse : ∀ rest, Alta.parseEntries hc (ebs ++ rest) = some parsed)
    (tail : List Nat) :
    Alta.authTagEOFromStr (b :: ([idx / 16777216 % 256, idx / 65536 % 256,
        idx / 256 % 256, idx % 256] ++ (ebs ++ tail))) =
      (if sp then
        (if tail.length < 64 then none
         else some (⟨idx, hc, sp,
            parsed.foldl (fun m e => Alta.aset m (Alta.decByte e.1 + (idx : Int)) e.2) [],
            some (tail.take 64)⟩, 5 + 9 * hc + 64))
       else some (⟨idx, hc, sp,
          parsed.foldl (fun m e => Alta.aset m (Alta.decByte e.1 + (idx : Int)) e.2) [],
          none⟩, 5 + 9 * hc)) := by
  have hdrop5 : (b :: ([idx / 16777216 % 256, idx / 65536 % 256,
      idx / 256 % 256, idx % 256] ++ (ebs ++ tail))).drop 5 = ebs ++ tail := by
    simp
  have hdropu : (b :: ([idx / 16777216 % 256, idx / 65536 % 256,
      idx / 256 % 256, idx % 256] ++ (ebs ++ tail))).drop (5 + 9 * hc) = tail := by
    rw [show (5 + 9 * hc) = 5 + ebs.length by omega, ← List.drop_drop, hdrop5,
      List.drop_left]
  have hvlen : (b :: ([idx / 16777216 % 256, idx / 65536 % 256,
      idx / 256 % 256, idx % 256] ++ (ebs ++ tail))).length = 5 + 9 * hc + tail.length := by
    simp [hlen]; omega
  simp only [Alta.authTagEOFromStr, Option.bind_eq_bind, hoptp, Option.some_bind,
    unpackU32_cons, unpack_pack_u32 idx hidx, hdrop5, hparse, Alta.hash_size]
  cases sp with
  | false =>
      simp only [if_false, Bool.false_eq_true]
  | true =>
      simp only [if_true]
      rw [show 5 + (1 + 8) * hc = 5 + 9 * hc by ring]
      rw [hvlen, hdropu, Alta.signature_len]
      by_cases ht : tail.length < 64
      · rw [if_pos (by omega), if_pos ht]
      · rw [if_neg (by omega), if_neg ht]

/-- Dropping the options octet, index, and records reaches the tail. -/
theorem drop_tag_prefix (b0 x0 x1 x2 x3 : Nat) (ebs tail : List Nat) (hc : Nat)
    (hlen : ebs.length = 9 * hc) :
    (b0 :: ([x0, x1, x2, x3] ++ (ebs ++ tail))).drop (5 + 9 * hc) = tail := by
  have hdrop5 : (b0 :: ([x0, x1, x2, x3] ++ (ebs ++ tail))).drop 5 = ebs ++ tail := by
    simp
  rw [show (5 + 9 * hc) = 5 + ebs.length by omega, ← List.drop_drop, hdrop5,
    List.drop_left]

/-- `add_signature` on a serialized payload whose slot is zero-filled
replaces exactly the slot. -/
theorem sigslot_splice (hc : Nat) (core sg app : List Nat)
    (hcore : core.length = 5 + 9 * hc) (hsg : sg.length = 64) :
    Alta.addSignature hc ((core ++ List.replicate 64 0) ++ app) sg =
      core ++ (sg ++ app) := by
  have h1 : Alta.sigOfs hc = core.length := by
    simp only [Alta.sigOfs, Alta.hash_size]; omega
  simp only [Alta.addSignature, Alta.signature_len, h1]
  rw [List.append_assoc core, List.take_left]
  rw [show core.length + 64 = (core ++ List.replicate 64 0).length by simp]
  rw [← List.append_assoc core (List.replicate 64 0) app, List.drop_left,
    List.append_assoc]

/-- `strip_signature` on a signed serialized payload zero-fills exactly
the slot. -/
theorem sigslot_strip (hc : Nat) (core sg app : List Nat)
    (hcore : core.length = 5 + 9 * hc) (hsg : sg.length = 64) :
    Alta.stripSignature hc (core ++ (sg ++ app)) =
      (core ++ List.replicate 64 0) ++ app := by
  have h1 : Alta.sigOfs hc = core.length := by
    simp only [Alta.sigOfs, Alta.hash_size]; omega
  simp only [Alta.stripSignature, Alta.addSignature, Alta.signature_len, h1]
  rw [List.take_left]
  rw [show core.length + 64 = (core ++ sg).length by simp [hsg]]
  rw [← List.append_assoc, List.drop_left, List.append_assoc]

/-- Claim C4: producer-side payloads (in-range chained offsets, at most
7 chained hashes, index below `2^32`, 8-octet hashes, signature not yet
cached) survive the serialize/deserialize round trip: index, app_data,
options fields, chained hash map, and (when present) the signature are
all preserved. -/
theorem C4_codec_roundtrip (sigfn : List Nat → List Nat) (p : Alta.ModelPayload)
    (hsiglen : ∀ m, (sigfn m).length = 64)
    (hidx : p.auth_tag.index < 4294967296)
    (hhc : p.auth_tag.hash_count = p.auth_tag.hashes.length)
    (hhc7 : p.auth_tag.hash_count ≤ 7)
    (hnd : (p.auth_tag.hashes.map Prod.fst).Nodup)
    (hrange : ∀ e ∈ p.auth_tag.hashes,
      (-128 ≤ e.1 - (p.auth_tag.index : Int) ∧ e.1 - (p.auth_tag.index : Int) ≤ 127) ∧
        e.2.length = 8)
    (hsig : p.auth_tag.signature = none) :
    ∃ p' bytes q,
      Alta.payloadToStr sigfn p = some (p', bytes) ∧
      Alta.modelPayloadFromStr sigfn bytes = some (q, bytes.length) ∧
      q.auth_tag.index = p.auth_tag.index ∧
      q.app_data = p.app_data ∧
      q.auth_tag.hash_count = p.auth_tag.hash_count ∧
      q.auth_tag.signature_present = p.auth_tag.signature_present ∧
      Alta.chainedHashes q.auth_tag = Alta.chainedHashes p.auth_tag ∧
      q.auth_tag.signature = p'.auth_tag.signature ∧
      q.signature_valid = (if p.auth_tag.signature_present then some true else none) := by
  obtain ⟨b, hopt, hoptp⟩ :=
    options_roundtrip p.auth_tag.hash_count p.auth_tag.signature_present hhc7
  have hperm : (Alta.chainedHashes p.auth_tag).Perm p.auth_tag.hashes := sortPairs_perm _
  have hmem : ∀ e ∈ Alta.chainedHashes p.auth_tag, e ∈ p.auth_tag.hashes :=
    fun e he => hperm.mem_iff.mp he
  have hlen_ents : (Alta.chainedHashes p.auth_tag).length = p.auth_tag.hash_count := by
    rw [hperm.length_eq, ← hhc]
  have hnd_ents : ((Alta.chainedHashes p.auth_tag).map Prod.fst).Nodup :=
    ((hperm.map Prod.fst).nodup_iff).mpr hnd
  obtain ⟨ebs, hebs, hebslen, hparse0⟩ :=
    encodeEntries_spec p.auth_tag.index (Alta.chainedHashes p.auth_tag)
      (fun e he => (hrange e (hmem e he)).1)
  have hebslen' : ebs.length = 9 * p.auth_tag.hash_count := by
    rw [hebslen, hlen_ents]
  have hparse : ∀ rest, Alta.parseEntries p.auth_tag.hash_count (ebs ++ rest) =
      some ((Alta.chainedHashes p.auth_tag).map
        fun e => (((e.1 - (p.auth_tag.index : Int)) % 256).toNat, Alta.padTrunc 8 e.2)) := by
    intro rest
    rw [← hlen_ents]
    exact hparse0 rest
  have hfold : (((Alta.chainedHashes p.auth_tag).map
      fun e => (((e.1 - (p.auth_tag.index : Int)) % 256).toNat, Alta.padTrunc 8 e.2)).foldl
        (fun m e => Alta.aset m (Alta.decByte e.1 + (p.auth_tag.index : Int)) e.2) []) =
      Alta.chainedHashes p.auth_tag := by
    have hff := fromStr_fold p.auth_tag.index (Alta.chainedHashes p.auth_tag) []
      (fun e he => ⟨(hrange e (hmem e he)).1.1, (hrange e (hmem e he)).1.2,
        (hrange e (hmem e he)).2, rfl⟩) hnd_ents
    simpa using hff
  have hsortents : Alta.sortPairs (Alta.chainedHashes p.auth_tag) =
      Alta.chainedHashes p.auth_tag := sortPairs_idem p.auth_tag.hashes
  cases hsp : p.auth_tag.signature_present with
  | false =>
      have hoptp' : ∀ rest, Alta.optionsFromStr (b :: rest) =
          some ((p.auth_tag.hash_count, false), 1) := fun rest => hsp ▸ hoptp rest
      have hopt2 : Alta.optionsToStr p.auth_tag.hash_count false = some [b] := hsp ▸ hopt
      have htag : Alta.tagToStr p.auth_tag = some
          (b :: ([p.auth_tag.index / 16777216 % 256, p.auth_tag.index / 65536 % 256,
            p.auth_tag.index / 256 % 256, p.auth_tag.index % 256] ++
            (ebs ++ []))) := by
        simp only [Alta.tagToStr, Option.bind_eq_bind, hopt, hopt2, packU32_eq _ hidx, hebs,
          Option.some_bind, hsp, Bool.false_eq_true, if_false]
        simp [List.append_assoc]
      have hts : Alta.payloadToStr sigfn p = some (p,
          b :: ([p.auth_tag.index / 16777216 % 256, p.auth_tag.index / 65536 % 256,
            p.auth_tag.index / 256 % 256, p.auth_tag.index % 256] ++
            (ebs ++ p.app_data))) := by
        simp only [Alta.payloadToStr, htag, Option.bind_eq_bind, Option.some_bind, hsp,
          Bool.false_eq_true, if_false]
        simp [List.append_assoc]
      have hfs := tagFromStr_core p.auth_tag.hash_count false p.auth_tag.index b hoptp'
        hidx _ ebs hebslen' hparse p.app_data
      rw [if_neg (by simp)] at hfs
      have hdropv := drop_tag_prefix b (p.auth_tag.index / 16777216 % 256)
        (p.auth_tag.index / 65536 % 256) (p.auth_tag.index / 256 % 256)
        (p.auth_tag.index % 256) ebs p.app_data p.auth_tag.hash_count hebslen'
      refine ⟨p, _, ⟨⟨p.auth_tag.index, p.auth_tag.hash_count, false,
        Alta.chainedHashes p.auth_tag, none⟩, p.app_data, none⟩, hts,
        ?_, rfl, rfl, rfl, rfl, ?_, hsig.symm, by simp [hsp]⟩
      · simp only [Alta.modelPayloadFromStr, Option.bind_eq_bind, hfs, Option.some_bind,
          hfold, hdropv]
        simp [Alta.tagVerify]
      · show Alta.sortPairs _ = _
        exact hsortents
  | true =>
      have hoptp' : ∀ rest, Alta.optionsFromStr (b :: rest) =
          some ((p.auth_tag.hash_count, true), 1) := fun rest => hsp ▸ hoptp rest
      have hopt2 : Alta.optionsToStr p.auth_tag.hash_count true = some [b] := hsp ▸ hopt
      have htag : Alta.tagToStr p.auth_tag = some ((([b] ++ [p.auth_tag.index / 16777216 % 256, p.auth_tag.index / 65536 % 256,
            p.auth_tag.index / 256 % 256, p.auth_tag.index % 256]) ++ ebs) ++
            List.replicate 64 0) := by
        simp only [Alta.tagToStr, Option.bind_eq_bind, hopt, hopt2, packU32_eq _ hidx, hebs,
          Option.some_bind, hsp, if_true, Alta.signature_len]
      have hcore : (([b] ++ [p.auth_tag.index / 16777216 % 256, p.auth_tag.index / 65536 % 256,
            p.auth_tag.index / 256 % 256, p.auth_tag.index % 256]) ++ ebs).length =
          5 + 9 * p.auth_tag.hash_count := by
        simp [hebslen']
        omega
      have hts0 := payloadToStr_of_uncached sigfn p hsig hsp _ htag
      rw [sigslot_splice p.auth_tag.hash_count _ _ _ hcore (hsiglen _)] at hts0
      have hsg := hsiglen (((([b] ++ [p.auth_tag.index / 16777216 % 256, p.auth_tag.index / 65536 % 256,
            p.auth_tag.index / 256 % 256, p.auth_tag.index % 256]) ++ ebs) ++
            List.replicate 64 0) ++ p.app_data)
      have hfs := tagFromStr_core p.auth_tag.hash_count true p.auth_tag.index b hoptp'
        hidx _ ebs hebslen' hparse (sigfn (((([b] ++ [p.auth_tag.index / 16777216 % 256, p.auth_tag.index / 65536 % 256,
            p.auth_tag.index / 256 % 256, p.auth_tag.index % 256]) ++ ebs) ++
            List.replicate 64 0) ++ p.app_data) ++ p.app_data)
      rw [if_pos rfl] at hfs
      rw [if_neg (by simp only [List.length_append, hsg]; omega)] at hfs
      have htake : ((sigfn (((([b] ++ [p.auth_tag.index / 16777216 % 256, p.auth_tag.index / 65536 % 256,
            p.auth_tag.index / 256 % 256, p.auth_tag.index % 256]) ++ ebs) ++
            List.replicate 64 0) ++ p.app_data) ++ p.app_data)).take 64 = sigfn (((([b] ++ [p.auth_tag.index / 16777216 % 256, p.auth_tag.index / 65536 % 256,
            p.auth_tag.index / 256 % 256, p.auth_tag.index % 256]) ++ ebs) ++
            List.replicate 64 0) ++ p.app_data) :=
        List.take_left' hsg
      rw [htake] at hfs
      have hdropv : (b :: ([p.auth_tag.index / 16777216 % 256, p.auth_tag.index / 65536 % 256,
            p.auth_tag.index / 256 % 256, p.auth_tag.index % 256] ++ (ebs ++ (sigfn (((([b] ++ [p.auth_tag.index / 16777216 % 256, p.auth_tag.index / 65536 % 256,
            p.auth_tag.index / 256 % 256, p.auth_tag.index % 256]) ++ ebs) ++
            List.replicate 64 0) ++ p.app_data) ++ p.app_data)))).drop (5 + 9 * p.auth_tag.hash_count + 64) = p.app_data := by
        rw [← List.drop_drop, drop_tag_prefix _ _ _ _ _ _ _ _ hebslen',
          List.drop_left' hsg]
      have hvshape : ((([b] ++ [p.auth_tag.index / 16777216 % 256, p.auth_tag.index / 65536 % 256,
            p.auth_tag.index / 256 % 256, p.auth_tag.index % 256]) ++ ebs) ++ (sigfn (((([b] ++ [p.auth_tag.index / 16777216 % 256, p.auth_tag.index / 65536 % 256,
            p.auth_tag.index / 256 % 256, p.auth_tag.index % 256]) ++ ebs) ++
            List.replicate 64 0) ++ p.app_data) ++ p.app_data)) = (b :: ([p.auth_tag.index / 16777216 % 256, p.auth_tag.index / 65536 % 256,
            p.auth_tag.index / 256 % 256, p.auth_tag.index % 256] ++ (ebs ++ (sigfn (((([b] ++ [p.auth_tag.index / 16777216 % 256, p.auth_tag.index / 65536 % 256,
            p.auth_tag.index / 256 % 256, p.auth_tag.index % 256]) ++ ebs) ++
            List.replicate 64 0) ++ p.app_data) ++ p.app_data)))) := by
        simp [List.append_assoc]
      have hstrip2 : Alta.stripSignature p.auth_tag.hash_count (b :: ([p.auth_tag.index / 16777216 % 256, p.auth_tag.index / 65536 % 256,
            p.auth_tag.index / 256 % 256, p.auth_tag.index % 256] ++ (ebs ++ (sigfn (((([b] ++ [p.auth_tag.index / 16777216 % 256, p.auth_tag.index / 65536 % 256,
            p.auth_tag.index / 256 % 256, p.auth_tag.index % 256]) ++ ebs) ++
            List.replicate 64 0) ++ p.app_data) ++ p.app_data)))) =
          ((([b] ++ [p.auth_tag.index / 16777216 % 256, p.auth_tag.index / 65536 % 256,
            p.auth_tag.index / 256 % 256, p.auth_tag.index % 256]) ++ ebs) ++
            List.replicate 64 0) ++ p.app_data := by
        rw [← hvshape,
          sigslot_strip p.auth_tag.hash_count (([b] ++ [p.auth_tag.index / 16777216 % 256, p.auth_tag.index / 65536 % 256,
            p.auth_tag.index / 256 % 256, p.auth_tag.index % 256]) ++ ebs) (sigfn (((([b] ++ [p.auth_tag.index / 16777216 % 256, p.auth_tag.index / 65536 % 256,
            p.auth_tag.index / 256 % 256, p.auth_tag.index % 256]) ++ ebs) ++
            List.replicate 64 0) ++ p.app_data)) p.app_data hcore hsg,
          List.append_assoc]
      refine ⟨_, _, ⟨⟨p.auth_tag.index, p.auth_tag.hash_count, true,
        Alta.chainedHashes p.auth_tag, some (sigfn (((([b] ++ [p.auth_tag.index / 16777216 % 256, p.auth_tag.index / 65536 % 256,
            p.auth_tag.index / 256 % 256, p.auth_tag.index % 256]) ++ ebs) ++
            List.replicate 64 0) ++ p.app_data))⟩, p.app_data, some true⟩,
        hts0, ?_, rfl, rfl, rfl, rfl, ?_, rfl, by simp [hsp]⟩
      · rw [hvshape]
        simp only [Alta.modelPayloadFromStr, Option.bind_eq_bind, hfs, Option.some_bind,
          hfold, hdropv]
        rw [if_pos (by
          rw [Alta.tagVerify]
          rw [if_pos (show (⟨p.auth_tag.index, p.auth_tag.hash_count, true,
            Alta.chainedHashes p.auth_tag,
            some (sigfn (((([b] ++ [p.auth_tag.index / 16777216 % 256, p.auth_tag.index / 65536 % 256,
            p.auth_tag.index / 256 % 256, p.auth_tag.index % 256]) ++ ebs) ++
            List.replicate 64 0) ++ p.app_data))⟩ : Alta.ModelAuthTag).signature_present = true from rfl)]
          show decide ((some (sigfn (((([b] ++ [p.auth_tag.index / 16777216 % 256, p.auth_tag.index / 65536 % 256,
            p.auth_tag.index / 256 % 256, p.auth_tag.index % 256]) ++ ebs) ++
            List.replicate 64 0) ++ p.app_data)) : Option (List Nat)) =
            some (sigfn (Alta.stripSignature p.auth_tag.hash_count (b :: ([p.auth_tag.index / 16777216 % 256, p.auth_tag.index / 65536 % 256,
            p.auth_tag.index / 256 % 256, p.auth_tag.index % 256] ++ (ebs ++ (sigfn (((([b] ++ [p.auth_tag.index / 16777216 % 256, p.auth_tag.index / 65536 % 256,
            p.auth_tag.index / 256 % 256, p.auth_tag.index % 256]) ++ ebs) ++
            List.replicate 64 0) ++ p.app_data) ++ p.app_data))))))) = true
          rw [hstrip2]
          exact decide_eq_true rfl)]
        rfl
      · show Alta.sortPairs _ = _
        exact hsortents

/-- Claim C4 witness: the round trip applied to the concrete signed
payload `c4Payload` with a concrete 64-octet signing function. -/
theorem C4_codec_roundtrip_witness :
    (∀ m, (Alta.c4Sigfn m).length = 64) ∧
    Alta.c4Payload.auth_tag.index < 4294967296 ∧
    Alta.c4Payload.auth_tag.hash_count = Alta.c4Payload.auth_tag.hashes.length ∧
    Alta.c4Payload.auth_tag.hash_count ≤ 7 ∧
    (Alta.c4Payload.auth_tag.hashes.map Prod.fst).Nodup ∧
    (∀ e ∈ Alta.c4Payload.auth_tag.hashes,
      (-128 ≤ e.1 - (Alta.c4Payload.auth_tag.index : Int) ∧
        e.1 - (Alta.c4Payload.auth_tag.index : Int) ≤ 127) ∧ e.2.length = 8) ∧
    Alta.c4Payload.auth_tag.signature = none ∧
    (∃ p' bytes q,
      Alta.payloadToStr Alta.c4Sigfn Alta.c4Payload = some (p', bytes) ∧
      Alta.modelPayloadFromStr Alta.c4Sigfn bytes = some (q, bytes.length) ∧
      q.auth_tag.index = Alta.c4Payload.auth_tag.index ∧
      q.app_data = Alta.c4Payload.app_data ∧
      q.auth_tag.hash_count = Alta.c4Payload.auth_tag.hash_count ∧
      q.auth_tag.signature_present = Alta.c4Payload.auth_tag.signature_present ∧
      Alta.chainedHashes q.auth_tag = Alta.chainedHashes Alta.c4Payload.auth_tag ∧
      q.auth_tag.signature = p'.auth_tag.signature ∧
      q.signature_valid =
        (if Alta.c4Payload.auth_tag.signature_present then some true else none)) :=
  ⟨fun m => rfl, by decide, by decide, by decide, by decide, by decide, rfl,
    C4_codec_roundtrip Alta.c4Sigfn Alta.c4Payload (fun m => rfl) (by decide) (by decide)
      (by decide) (by decide) (by decide) rfl⟩

/-- Claim C6, counterexample: `AuthTagEO.from_str` on an input whose two
chained-hash records carry the same offset (same source index 6 =
offset 1 + index 5) succeeds — no `OverwriteHash` failure — and the
later record silently overwrites the earlier one. -/
theorem C6_from_str_dup_counterexample :
    Alta.authTagEOFromStr ([64, 0, 0, 0, 5, 1] ++ List.replicate 8 170 ++
        [1] ++ List.replicate 8 187) =
      some (⟨5, 2, false, [(6, List.replicate 8 187)], none⟩, 23) := by
  decide

/-- Claim C6 (amended): `chain_payload_hash` (the producer-side chaining
path) fails with `OverwriteHash` on a duplicate source index, but
`AuthTagEO.from_str` writes records directly into the hash map, so a
duplicate offset does not fail: the later record overwrites the
earlier (`aset` twice at one key keeps only the second value). -/
theorem C6_dup_handling :
    (∀ (t : Alta.ModelAuthTag) (src : Int) (h : List Nat),
      (Alta.getChainedHash t src).isSome = true →
      Alta.chainPayloadHash t src h = Except.error Alta.TagErr.overwriteHash) ∧
    (∀ (m : List (Int × List Nat)) (k : Int) (v1 v2 : List Nat),
      Alta.aset (Alta.aset m k v1) k v2 = Alta.aset m k v2) := by
  constructor
  · intro t src h hs
    rw [Alta.chainPayloadHash, if_pos (show (Alta.alookup t.hashes src).isSome = true from hs)]
  · intro m k v1 v2
    induction m with
    | nil => simp [Alta.aset]
    | cons x t ih =>
        obtain ⟨x1, x2⟩ := x
        by_cases hk : x1 = k
        · simp [Alta.aset, hk]
        · simp [Alta.aset, hk, ih]

/-- Claim C6 witness: chaining a hash onto a tag that already chains
source index 6 fails with `OverwriteHash`. -/
theorem C6_dup_handling_witness :
    (Alta.getChainedHash ⟨5, 1, false, [(6, List.replicate 8 170)], none⟩ 6).isSome = true ∧
    Alta.chainPayloadHash ⟨5, 1, false, [(6, List.replicate 8 170)], none⟩ 6
      (List.replicate 8 187) = Except.error Alta.TagErr.overwriteHash :=
  ⟨by decide, C6_dup_handling.1 _ _ _ (by decide)⟩

/-! ### Association-list and consumer-state lemmas -/

theorem alookup_aset_self {α : Type} (m : List (Int × α)) (k : Int) (v : α) :
    Alta.alookup (Alta.aset m k v) k = some v := by
  induction m with
  | nil => simp [Alta.aset, Alta.alookup]
  | cons x t ih =>
      obtain ⟨k', v'⟩ := x
      by_cases hk : k' = k
      · simp [Alta.aset, Alta.alookup, hk]
      · simp [Alta.aset, Alta.alookup, hk, ih]

theorem alookup_aset_ne {α : Type} (m : List (Int × α)) (k : Int) (v : α) (i : Int)
    (h : k ≠ i) :
    Alta.alookup (Alta.aset m k v) i = Alta.alookup m i := by
  induction m with
  | nil => simp [Alta.aset, Alta.alookup, h]
  | cons x t ih =>
      obtain ⟨k', v'⟩ := x
      by_cases hk : k' = k
      · subst hk
        simp [Alta.aset, Alta.alookup, h]
      · simp [Alta.aset, Alta.alookup, hk, ih]

theorem alookup_eq_none_iff {α : Type} (m : List (Int × α)) (k : Int) :
    Alta.alookup m k = none ↔ k ∉ m.map Prod.fst := by
  induction m with
  | nil => simp [Alta.alookup]
  | cons x t ih =>
      obtain ⟨k', v'⟩ := x
      by_cases hk : k' = k
      · simp [Alta.alookup, hk]
      · simp [Alta.alookup, hk, ih, Ne.symm hk]

theorem mem_keys_aset {α : Type} (m : List (Int × α)) (k : Int) (v : α) (i : Int)
    (h : i ∈ (Alta.aset m k v).map Prod.fst) : i ∈ m.map Prod.fst ∨ i = k := by
  induction m with
  | nil => simpa [Alta.aset] using h
  | cons x t ih =>
      obtain ⟨k', v'⟩ := x
      by_cases hk : k' = k
      · subst hk
        exact Or.inl (by simpa [Alta.aset] using h)
      · simp only [Alta.aset, if_neg hk, List.map_cons, List.mem_cons] at h
        rcases h with h | h
        · exact Or.inl (by simp [h])
        · rcases ih h with h2 | h2
          · exact Or.inl (by simp [h2])
          · exact Or.inr h2

theorem nodup_keys_aset {α : Type} (m : List (Int × α)) (k : Int) (v : α)
    (h : (m.map Prod.fst).Nodup) : ((Alta.aset m k v).map Prod.fst).Nodup := by
  induction m with
  | nil => simp [Alta.aset]
  | cons x t ih =>
      obtain ⟨k', v'⟩ := x
      simp only [List.map_cons, List.nodup_cons] at h
      by_cases hk : k' = k
      · subst hk
        simpa [Alta.aset] using h
      · simp only [Alta.aset, if_neg hk, List.map_cons, List.nodup_cons]
        refine ⟨fun hmem => ?_, ih h.2⟩
        rcases mem_keys_aset t k v k' hmem with h2 | h2
        · exact h.1 h2
        · exact hk h2

theorem nodup_keys_asetdefault {α : Type} (m : List (Int × α)) (k : Int) (v : α)
    (h : (m.map Prod.fst).Nodup) :
    ((Alta.asetdefault m k v).map Prod.fst).Nodup := by
  rw [Alta.asetdefault]
  split
  · exact h
  · rename_i hnone
    have hk : k ∉ m.map Prod.fst := by
      rw [← alookup_eq_none_iff]
      cases ho : Alta.alookup m k with
      | none => rfl
      | some w => rw [ho] at hnone; simp at hnone
    simp [List.nodup_append, h, hk]

/-- `_set_verified`/`_extend_verification` touch only the verified-hash
map and the latest verified index. -/
theorem svRun_state (fuel : Nat) : ∀ (s : Alta.Consumer) (c : Alta.SVCall),
    (Alta.svRun fuel s c).1.payloads = s.payloads ∧
    (Alta.svRun fuel s c).1.pre_lv_window = s.pre_lv_window ∧
    (Alta.svRun fuel s c).1.post_lv_window = s.post_lv_window := by
  induction fuel with
  | zero => intro s c; exact ⟨rfl, rfl, rfl⟩
  | succ fuel ih =>
      intro s c
      match c with
      | .setv index hash_value =>
          rw [Alta.svRun]
          split
          · exact ⟨rfl, rfl, rfl⟩
          · split
            · exact ih _ _
            · exact ⟨rfl, rfl, rfl⟩
      | .extend [] => exact ⟨rfl, rfl, rfl⟩
      | .extend ((src, ch) :: rest) =>
          rw [Alta.svRun]
          split
          · obtain ⟨h1, h2, h3⟩ := ih (Alta.svRun fuel s (.setv src ch)).1 (.extend rest)
            obtain ⟨g1, g2, g3⟩ := ih s (.setv src ch)
            exact ⟨h1.trans g1, h2.trans g2, h3.trans g3⟩
          · exact ih _ _

/-- `_set_verified` keeps the verified-hash keys duplicate-free. -/
theorem svRun_nodup (fuel : Nat) : ∀ (s : Alta.Consumer) (c : Alta.SVCall),
    (s.verified_hashes.map Prod.fst).Nodup →
    ((Alta.svRun fuel s c).1.verified_hashes.map Prod.fst).Nodup := by
  induction fuel with
  | zero => intro s c h; exact h
  | succ fuel ih =>
      intro s c h
      match c with
      | .setv index hash_value =>
          rw [Alta.svRun]
          split
          · exact nodup_keys_aset _ _ _ h
          · split
            · exact ih _ _ (nodup_keys_aset _ _ _ h)
            · exact nodup_keys_aset _ _ _ h
      | .extend [] => exact h
      | .extend ((src, ch) :: rest) =>
          rw [Alta.svRun]
          split
          · exact ih _ _ (ih _ _ h)
          · exact ih _ _ h

/-- `_set_verified` never removes or changes an existing verified hash,
except that the index passed to the top-level call may be overwritten
(recursive calls are guarded by `src not in verified_hashes`). -/
theorem svRun_preserves (fuel : Nat) : ∀ (s : Alta.Consumer) (c : Alta.SVCall)
    (i : Int) (h : List Nat),
    Alta.alookup s.verified_hashes i = some h →
    (∀ j hj, c = .setv j hj → j ≠ i ∨ hj = h) →
    Alta.alookup (Alta.svRun fuel s c).1.verified_hashes i = some h := by
  induction fuel with
  | zero => intro s c i h hv _; exact hv
  | succ fuel ih =>
      intro s c i h hv hc
      match c with
      | .setv index hash_value =>
          have hstep : Alta.alookup (Alta.aset s.verified_hashes index hash_value) i =
              some h := by
            rcases hc index hash_value rfl with hne | heq
            · rw [alookup_aset_ne _ _ _ _ hne]; exact hv
            · by_cases hii : index = i
              · subst hii; rw [alookup_aset_self, heq]
              · rw [alookup_aset_ne _ _ _ _ hii]; exact hv
          rw [Alta.svRun]
          split
          · exact hstep
          · split
            · exact ih _ _ _ _ hstep (by intro j hj hne; cases hne)
            · exact hstep
      | .extend [] => exact hv
      | .extend ((src, ch) :: rest) =>
          rw [Alta.svRun]
          split
          · rename_i hguard
            have hsrc : src ≠ i := by
              intro hsi
              subst hsi
              rw [hv] at hguard
              simp at hguard
            have h1 := ih s (.setv src ch) i h hv
              (by intro j hj hjeq; cases hjeq; exact Or.inl hsrc)
            exact ih _ (.extend rest) i h h1 (by intro j hj hne; cases hne)
          · exact ih _ (.extend rest) i h hv (by intro j hj hne; cases hne)

/-- Looking a key up in a window-filtered map: inside the window the
lookup is unchanged, outside it is gone. -/
theorem alookup_filter_window {α : Type} (l : List (Int × α)) (a b k : Int) :
    Alta.alookup (l.filter fun e => decide (a ≤ e.1) && decide (e.1 ≤ b)) k =
      if a ≤ k ∧ k ≤ b then Alta.alookup l k else none := by
  induction l with
  | nil => simp [Alta.alookup]
  | cons x t ih =>
      obtain ⟨k', v'⟩ := x
      by_cases hin : a ≤ k' ∧ k' ≤ b
      · rw [List.filter_cons_of_pos (by simpa using hin)]
        by_cases hk : k' = k
        · subst hk
          simp [Alta.alookup, hin]
        · simp only [Alta.alookup, if_neg hk]
          exact ih
      · rw [List.filter_cons_of_neg (by simpa using hin)]
        by_cases hk : k' = k
        · subst hk
          rw [if_neg hin, ih, if_neg hin]
        · simp only [Alta.alookup, if_neg hk] at *
          exact ih

/-- A duplicate-free map whose keys are clipped to `[a, b]` has at most
`b + 1 - a` entries. -/
theorem length_filter_window {α : Type} (l : List (Int × α))
    (hnd : (l.map Prod.fst).Nodup) (a b : Int) :
    (l.filter fun e => decide (a ≤ e.1) && decide (e.1 ≤ b)).length ≤ (b + 1 - a).toNat := by
  have hsubmap : ((l.filter fun e => decide (a ≤ e.1) && decide (e.1 ≤ b)).map
      Prod.fst).Sublist (l.map Prod.fst) :=
    (List.filter_sublist l).map Prod.fst
  have hsub : ((l.filter fun e => decide (a ≤ e.1) && decide (e.1 ≤ b)).map Prod.fst).Nodup :=
    hnd.sublist hsubmap
  have hmem : ∀ k ∈ (l.filter fun e => decide (a ≤ e.1) && decide (e.1 ≤ b)).map Prod.fst,
      k ∈ Finset.Icc a b := by
    intro k hk
    simp only [List.mem_map] at hk
    obtain ⟨e, he, hek⟩ := hk
    rw [List.mem_filter] at he
    simp only [Bool.and_eq_true, decide_eq_true_eq] at he
    rw [Finset.mem_Icc, ← hek]
    exact he.2
  calc (l.filter fun e => decide (a ≤ e.1) && decide (e.1 ≤ b)).length
      = ((l.filter fun e => decide (a ≤ e.1) && decide (e.1 ≤ b)).map Prod.fst).length := by
        rw [List.length_map]
    _ = ((l.filter fun e => decide (a ≤ e.1) && decide (e.1 ≤ b)).map Prod.fst).toFinset.card :=
        (List.toFinset_card_of_nodup hsub).symm
    _ ≤ (Finset.Icc a b).card := Finset.card_le_card (fun k hk =>
        hmem k (List.mem_toFinset.mp hk))
    _ = (b + 1 - a).toNat := Int.card_Icc a b

/-- `push_payload` unfolded: the resulting state is the expiry of the
state after the optional `_set_verified` call on the recorded payload. -/
theorem pushPayload_fst (s : Alta.Consumer) (p : Alta.CPayload) (a : Bool) :
    (Alta.pushPayload s p a).1 = Alta.expireOldState
      ((if a || p.signature_valid ||
          decide (Alta.alookup s.verified_hashes p.index = some p.hash)
        then Alta.svRun
          (Alta.consumerFuel { s with payloads := Alta.asetdefault s.payloads p.index p })
          { s with payloads := Alta.asetdefault s.payloads p.index p }
          (.setv p.index p.hash)
        else ({ s with payloads := Alta.asetdefault s.payloads p.index p }, [])).1) := rfl

/-- `push_payload` unfolded: the emitted events are the arrival-conflict
report followed by the events of the optional `_set_verified` call. -/
theorem pushPayload_snd (s : Alta.Consumer) (p : Alta.CPayload) (a : Bool) :
    (Alta.pushPayload s p a).2 =
      (if Alta.alookup s.verified_hashes p.index ≠ none ∧
          Alta.alookup s.verified_hashes p.index ≠ some p.hash
        then [Alta.CEvent.hashMismatchNew p.index] else []) ++
      ((if a || p.signature_valid ||
          decide (Alta.alookup s.verified_hashes p.index = some p.hash)
        then Alta.svRun
          (Alta.consumerFuel { s with payloads := Alta.asetdefault s.payloads p.index p })
          { s with payloads := Alta.asetdefault s.payloads p.index p }
          (.setv p.index p.hash)
        else ({ s with payloads := Alta.asetdefault s.payloads p.index p }, [])).2) := rfl

/-- Expiry preserves well-formedness. -/
theorem expire_wf (s : Alta.Consumer) (h : Alta.consumerWF s) :
    Alta.consumerWF (Alta.expireOldState s) := by
  obtain ⟨h1, h2, h3⟩ := h
  refine ⟨h1.sublist ((List.filter_sublist _).map Prod.fst),
    h2.sublist ((List.filter_sublist _).map Prod.fst), ?_⟩
  intro e he
  exact h3 e (List.mem_of_mem_filter he)

/-- Recording an arriving payload preserves well-formedness. -/
theorem asetdefault_wf (s : Alta.Consumer) (p : Alta.CPayload)
    (h : Alta.consumerWF s) :
    Alta.consumerWF { s with payloads := Alta.asetdefault s.payloads p.index p } := by
  obtain ⟨h1, h2, h3⟩ := h
  refine ⟨nodup_keys_asetdefault _ _ _ h1, h2, ?_⟩
  intro e he
  rw [Alta.asetdefault] at he
  split at he
  · exact h3 e he
  · rcases List.mem_append.mp he with hm | hm
    · exact h3 e hm
    · rw [List.mem_singleton.mp hm]

/-- `_set_verified` preserves well-formedness. -/
theorem svRun_wf (fuel : Nat) (s : Alta.Consumer) (c : Alta.SVCall)
    (h : Alta.consumerWF s) : Alta.consumerWF (Alta.svRun fuel s c).1 := by
  obtain ⟨h1, h2, h3⟩ := h
  obtain ⟨hp, _, _⟩ := svRun_state fuel s c
  exact ⟨hp ▸ h1, svRun_nodup fuel s c h2, hp ▸ h3⟩

/-- `push_payload` preserves well-formedness. -/
theorem pushPayload_wf (s : Alta.Consumer) (p : Alta.CPayload) (a : Bool)
    (h : Alta.consumerWF s) : Alta.consumerWF (Alta.pushPayload s p a).1 := by
  rw [pushPayload_fst]
  split
  · exact expire_wf _ (svRun_wf _ _ _ (asetdefault_wf s p h))
  · exact expire_wf _ (asetdefault_wf s p h)

/-- `push_payload` leaves the window parameters unchanged. -/
theorem pushPayload_windows (s : Alta.Consumer) (p : Alta.CPayload) (a : Bool) :
    (Alta.pushPayload s p a).1.pre_lv_window = s.pre_lv_window ∧
    (Alta.pushPayload s p a).1.post_lv_window = s.post_lv_window := by
  rw [pushPayload_fst]
  split
  · obtain ⟨_, h2, h3⟩ := svRun_state
      (Alta.consumerFuel { s with payloads := Alta.asetdefault s.payloads p.index p })
      { s with payloads := Alta.asetdefault s.payloads p.index p } (.setv p.index p.hash)
    exact ⟨h2, h3⟩
  · exact ⟨rfl, rfl⟩

/-- After any `push_payload`, both maps are clipped to the retention
window, so together they hold at most
`2 * (pre_lv_window + post_lv_window + 1)` entries. -/
theorem pushPayload_bound (s : Alta.Consumer) (p : Alta.CPayload) (a : Bool)
    (h : Alta.consumerWF s) :
    (Alta.pushPayload s p a).1.payloads.length +
      (Alta.pushPayload s p a).1.verified_hashes.length ≤
      2 * (s.pre_lv_window + s.post_lv_window + 1) := by
  have hwfmid : ∀ (t : Alta.Consumer), Alta.consumerWF t →
      t.pre_lv_window = s.pre_lv_window → t.post_lv_window = s.post_lv_window →
      (Alta.expireOldState t).payloads.length +
        (Alta.expireOldState t).verified_hashes.length ≤
        2 * (s.pre_lv_window + s.post_lv_window + 1) := by
    intro t ht hpre hpost
    obtain ⟨h1, h2, _⟩ := ht
    have hb1 := length_filter_window t.payloads h1
      (t.latest_verified_index - (t.pre_lv_window : Int))
      (t.latest_verified_index + (t.post_lv_window : Int))
    have hb2 := length_filter_window t.verified_hashes h2
      (t.latest_verified_index - (t.pre_lv_window : Int))
      (t.latest_verified_index + (t.post_lv_window : Int))
    have hcard : (t.latest_verified_index + (t.post_lv_window : Int) + 1 -
        (t.latest_verified_index - (t.pre_lv_window : Int))).toNat =
        t.pre_lv_window + t.post_lv_window + 1 := by omega
    rw [hcard] at hb1 hb2
    simp only [Alta.expireOldState]
    omega
  rw [pushPayload_fst]
  split
  · have hwf2 := svRun_wf
      (Alta.consumerFuel { s with payloads := Alta.asetdefault s.payloads p.index p })
      { s with payloads := Alta.asetdefault s.payloads p.index p } (.setv p.index p.hash)
      (asetdefault_wf s p h)
    obtain ⟨_, h2, h3⟩ := svRun_state
      (Alta.consumerFuel { s with payloads := Alta.asetdefault s.payloads p.index p })
      { s with payloads := Alta.asetdefault s.payloads p.index p } (.setv p.index p.hash)
    exact hwfmid _ hwf2 h2 h3
  · exact hwfmid _ (asetdefault_wf s p h) rfl rfl

/-- Claim C8: for every consumer built with windows `pre_lv_window` and
`post_lv_window`, after any sequence of `push_payload` calls (payloads
and `assume_verified` flags arbitrary), the total state size
`|payloads| + |verified_hashes|` is at most
`2 * (pre_lv_window + post_lv_window + 1)`. -/
theorem C8_window_bound (pre_lv_window post_lv_window : Nat)
    (pushes : List (Alta.CPayload × Bool)) :
    ((pushes.foldl (fun s pb => (Alta.pushPayload s pb.1 pb.2).1)
        (Alta.consumerInit pre_lv_window post_lv_window)).payloads.length +
      (pushes.foldl (fun s pb => (Alta.pushPayload s pb.1 pb.2).1)
        (Alta.consumerInit pre_lv_window post_lv_window)).verified_hashes.length) ≤
      2 * (pre_lv_window + post_lv_window + 1) := by
  suffices hgen : ∀ (l : List (Alta.CPayload × Bool)) (s : Alta.Consumer),
      Alta.consumerWF s → s.pre_lv_window = pre_lv_window →
      s.post_lv_window = post_lv_window →
      (s.payloads.length + s.verified_hashes.length ≤
        2 * (pre_lv_window + post_lv_window + 1)) →
      ((l.foldl (fun s pb => (Alta.pushPayload s pb.1 pb.2).1) s).payloads.length +
        (l.foldl (fun s pb => (Alta.pushPayload s pb.1 pb.2).1) s).verified_hashes.length ≤
        2 * (pre_lv_window + post_lv_window + 1)) by
    exact hgen pushes (Alta.consumerInit pre_lv_window post_lv_window)
      ⟨List.nodup_nil, List.nodup_nil, by intro e he; cases he⟩ rfl rfl
      (by show 0 + 0 ≤ _; omega)
  intro l
  induction l with
  | nil => intro s _ _ _ hb; exact hb
  | cons pb t ih =>
      intro s hwf hpre hpost _
      rw [List.foldl_cons]
      refine ih _ (pushPayload_wf s pb.1 pb.2 hwf) ?_ ?_ ?_
      · rw [(pushPayload_windows s pb.1 pb.2).1, hpre]
      · rw [(pushPayload_windows s pb.1 pb.2).2, hpost]
      · have := pushPayload_bound s pb.1 pb.2 hwf
        rw [hpre, hpost] at this
        exact this

/-- Claim C10: `latest_verified_index` starts at 0 and pruning runs at
the end of every `push_payload`, even before any payload has been
verified; hence a consumer whose verified-hash map is still empty that
receives an unsigned, not-assumed-verified payload with index beyond
`post_lv_window` drops it immediately: it is not retained in
`payloads`, nothing becomes verified, and `payloads_ready` yields
nothing. -/
theorem C10_prune_unverified (s : Alta.Consumer) (p : Alta.CPayload)
    (hv : s.verified_hashes = []) (hl : s.latest_verified_index = 0)
    (hsv : p.signature_valid = false) (hp : (s.post_lv_window : Int) < p.index) :
    (∀ pre_lv_window post_lv_window : Nat,
      (Alta.consumerInit pre_lv_window post_lv_window).latest_verified_index = 0) ∧
    Alta.alookup (Alta.pushPayload s p false).1.payloads p.index = none ∧
    (Alta.pushPayload s p false).1.verified_hashes = [] ∧
    (Alta.payloadsReady (Alta.pushPayload s p false).1).2.1 = [] := by
  have hstate : (Alta.pushPayload s p false).1 = Alta.expireOldState
      { s with payloads := Alta.asetdefault s.payloads p.index p } := by
    rw [pushPayload_fst, if_neg (by simp [hsv, hv, Alta.alookup])]
  have h2 : Alta.alookup (Alta.pushPayload s p false).1.payloads p.index = none := by
    rw [hstate]
    simp only [Alta.expireOldState]
    rw [alookup_filter_window, if_neg (by rw [hl]; omega)]
  have h3 : (Alta.pushPayload s p false).1.verified_hashes = [] := by
    rw [hstate]
    simp [Alta.expireOldState, hv]
  refine ⟨fun _ _ => rfl, h2, h3, ?_⟩
  rw [Alta.payloadsReady]
  simp only [h3, Alta.alookup]
  simp [Alta.sortPairs]

/-- Claim C10 witness: a consumer with windows 1/1 and nothing verified
drops an unsigned payload at index 2 (the hash is the genuine truncated
SHA-256 of the serialized model payload of index 2). -/
theorem C10_prune_unverified_witness :
    (Alta.consumerInit 1 1).verified_hashes = [] ∧
    (Alta.consumerInit 1 1).latest_verified_index = 0 ∧
    (((Alta.consumerInit 1 1).post_lv_window : Int) < 2) ∧
    (Alta.alookup (Alta.pushPayload (Alta.consumerInit 1 1)
        ⟨2, Alta.truncSHA256 [0, 0, 0, 0, 2], false, []⟩ false).1.payloads 2 = none ∧
      (Alta.pushPayload (Alta.consumerInit 1 1)
        ⟨2, Alta.truncSHA256 [0, 0, 0, 0, 2], false, []⟩ false).1.verified_hashes = [] ∧
      (Alta.payloadsReady (Alta.pushPayload (Alta.consumerInit 1 1)
        ⟨2, Alta.truncSHA256 [0, 0, 0, 0, 2], false, []⟩ false).1).2.1 = []) :=
  ⟨rfl, rfl, by decide,
    (C10_prune_unverified (Alta.consumerInit 1 1)
      ⟨2, Alta.truncSHA256 [0, 0, 0, 0, 2], false, []⟩ rfl rfl rfl (by decide)).2⟩

/-- `payloads_ready` delivers only payloads whose verified hash matches:
every yielded payload's hash equals the verified hash stored at its
index. -/
theorem payloadsReady_sound (s : Alta.Consumer)
    (hk : ∀ e ∈ s.payloads, e.1 = e.2.index) :
    ∀ q ∈ (Alta.payloadsReady s).2.1,
      Alta.alookup s.verified_hashes q.index = some q.hash := by
  intro q hq
  rw [Alta.payloadsReady] at hq
  simp only [List.mem_map] at hq
  obtain ⟨e, he, rfl⟩ := hq
  have he2 : e ∈ s.payloads.filter fun e =>
      decide (Alta.alookup s.verified_hashes e.1 = some e.2.hash) :=
    (sortPairs_perm _).mem_iff.mp he
  rw [List.mem_filter] at he2
  obtain ⟨hmem, hdec⟩ := he2
  rw [decide_eq_true_eq] at hdec
  rw [← hk e hmem]
  exact hdec

/-- Claim C3, counterexample: two distinct model payloads at index 0
(application octets `[0]` and `[1]`, genuinely different truncated
SHA-256 hashes), both pushed with `assume_verified=true`, set
`verified_hashes[0]` twice, to two different non-None values: the
second push overwrites the first. -/
theorem C3_overwrite_counterexample :
    Alta.observe Alta.c1Sigfn ⟨⟨0, 0, false, [], none⟩, [0], none⟩ =
      some ⟨0, [176, 246, 106, 220, 131, 100, 21, 134], false, []⟩ ∧
    Alta.observe Alta.c1Sigfn ⟨⟨0, 0, false, [], none⟩, [1], none⟩ =
      some ⟨0, [24, 97, 40, 191, 138, 77, 96, 235], false, []⟩ ∧
    Alta.alookup ((Alta.pushPayload (Alta.consumerInit 128 128)
        ⟨0, [176, 246, 106, 220, 131, 100, 21, 134], false, []⟩ true).1).verified_hashes 0 =
      some [176, 246, 106, 220, 131, 100, 21, 134] ∧
    Alta.alookup ((Alta.pushPayload ((Alta.pushPayload (Alta.consumerInit 128 128)
        ⟨0, [176, 246, 106, 220, 131, 100, 21, 134], false, []⟩ true).1)
        ⟨0, [24, 97, 40, 191, 138, 77, 96, 235], false, []⟩ true).1).verified_hashes 0 =
      some [24, 97, 40, 191, 138, 77, 96, 235] ∧
    ([176, 246, 106, 220, 131, 100, 21, 134] : List Nat) ≠
      [24, 97, 40, 191, 138, 77, 96, 235] := by
  refine ⟨by decide, by decide, by decide, by decide, by decide⟩

/-- Claim C3 (amended): for pushes that are neither assumed-verified nor
signature-valid, an existing `verified_hashes[i]` is never changed to a
different value: after the push it either still holds the same hash or
has been pruned from the window; a conflicting arrival at `i` is
reported with a `HashMismatch` event; and `payloads_ready` never
delivers a payload at `i` whose hash differs from the stored verified
hash.  (Arrivals with `assume_verified` or a valid signature can
overwrite, as the counterexample shows.) -/
theorem C3_verified_monotone (s : Alta.Consumer) (p : Alta.CPayload) (i : Int)
    (h : List Nat) (hwf : Alta.consumerWF s)
    (hv : Alta.alookup s.verified_hashes i = some h)
    (hsv : p.signature_valid = false) :
    (Alta.alookup (Alta.pushPayload s p false).1.verified_hashes i = some h ∨
      Alta.alookup (Alta.pushPayload s p false).1.verified_hashes i = none) ∧
    (p.index = i → p.hash ≠ h →
      Alta.CEvent.hashMismatchNew i ∈ (Alta.pushPayload s p false).2) ∧
    (∀ q ∈ (Alta.payloadsReady (Alta.pushPayload s p false).1).2.1,
      q.index = i → q.hash = h) := by
  have halive : ∀ (r1 : Alta.Consumer),
      Alta.alookup r1.verified_hashes i = some h →
      (Alta.alookup (Alta.expireOldState r1).verified_hashes i = some h ∨
        Alta.alookup (Alta.expireOldState r1).verified_hashes i = none) := by
    intro r1 hr
    simp only [Alta.expireOldState]
    rw [alookup_filter_window]
    split
    · exact Or.inl hr
    · exact Or.inr rfl
  have hmono : Alta.alookup (Alta.pushPayload s p false).1.verified_hashes i = some h ∨
      Alta.alookup (Alta.pushPayload s p false).1.verified_hashes i = none := by
    rw [pushPayload_fst]
    split
    · rename_i hcond
      refine halive _ (svRun_preserves _ _ _ i h hv ?_)
      intro j hj hjeq
      cases hjeq
      by_cases hii : p.index = i
      · rw [hsv, hii, hv] at hcond
        simp at hcond
        exact Or.inr hcond.symm
      · exact Or.inl hii
    · exact halive _ hv
  refine ⟨hmono, ?_, ?_⟩
  · intro hpi hph
    rw [pushPayload_snd]
    rw [List.mem_append]
    left
    rw [if_pos ?_]
    · rw [hpi]; exact List.mem_singleton.mpr rfl
    · rw [hpi, hv]
      refine ⟨by simp, ?_⟩
      intro hc
      rw [Option.some.injEq] at hc
      exact hph hc.symm
  · intro q hq hqi
    have hwf' := pushPayload_wf s p false hwf
    have hsound := payloadsReady_sound (Alta.pushPayload s p false).1 hwf'.2.2 q hq
    rw [hqi] at hsound
    rcases hmono with hm | hm
    · rw [hm] at hsound
      exact ((Option.some.injEq _ _).mp hsound).symm
    · rw [hm] at hsound
      cases hsound

/-- Claim C3 witness: the amended statement applied to a concrete state
with `verified_hashes[0]` set and a conflicting plain arrival. -/
theorem C3_verified_monotone_witness :
    Alta.consumerWF ⟨1, 1, [(0, ⟨0, [1, 2, 3, 4, 5, 6, 7, 8], false, []⟩)],
      [(0, [1, 2, 3, 4, 5, 6, 7, 8])], 0⟩ ∧
    Alta.alookup (⟨1, 1, [(0, ⟨0, [1, 2, 3, 4, 5, 6, 7, 8], false, []⟩)],
      [(0, [1, 2, 3, 4, 5, 6, 7, 8])], 0⟩ : Alta.Consumer).verified_hashes 0 =
      some [1, 2, 3, 4, 5, 6, 7, 8] ∧
    ((Alta.CPayload.mk 0 [9, 9, 9, 9, 9, 9, 9, 9] false []).signature_valid = false) ∧
    ((Alta.alookup (Alta.pushPayload ⟨1, 1, [(0, ⟨0, [1, 2, 3, 4, 5, 6, 7, 8], false, []⟩)],
        [(0, [1, 2, 3, 4, 5, 6, 7, 8])], 0⟩ ⟨0, [9, 9, 9, 9, 9, 9, 9, 9], false, []⟩
        false).1.verified_hashes 0 = some [1, 2, 3, 4, 5, 6, 7, 8] ∨
      Alta.alookup (Alta.pushPayload ⟨1, 1, [(0, ⟨0, [1, 2, 3, 4, 5, 6, 7, 8], false, []⟩)],
        [(0, [1, 2, 3, 4, 5, 6, 7, 8])], 0⟩ ⟨0, [9, 9, 9, 9, 9, 9, 9, 9], false, []⟩
        false).1.verified_hashes 0 = none) ∧
      ((0 : Int) = 0 → [9, 9, 9, 9, 9, 9, 9, 9] ≠ [1, 2, 3, 4, 5, 6, 7, 8] →
        Alta.CEvent.hashMismatchNew 0 ∈ (Alta.pushPayload ⟨1, 1,
          [(0, ⟨0, [1, 2, 3, 4, 5, 6, 7, 8], false, []⟩)],
          [(0, [1, 2, 3, 4, 5, 6, 7, 8])], 0⟩ ⟨0, [9, 9, 9, 9, 9, 9, 9, 9], false, []⟩
          false).2) ∧
      (∀ q ∈ (Alta.payloadsReady (Alta.pushPayload ⟨1, 1,
          [(0, ⟨0, [1, 2, 3, 4, 5, 6, 7, 8], false, []⟩)],
          [(0, [1, 2, 3, 4, 5, 6, 7, 8])], 0⟩ ⟨0, [9, 9, 9, 9, 9, 9, 9, 9], false, []⟩
          false).1).2.1, q.index = 0 → q.hash = [1, 2, 3, 4, 5, 6, 7, 8])) :=
  ⟨by decide, by decide, rfl,
    C3_verified_monotone ⟨1, 1, [(0, ⟨0, [1, 2, 3, 4, 5, 6, 7, 8], false, []⟩)],
      [(0, [1, 2, 3, 4, 5, 6, 7, 8])], 0⟩ ⟨0, [9, 9, 9, 9, 9, 9, 9, 9], false, []⟩ 0
      [1, 2, 3, 4, 5, 6, 7, 8] (by decide) (by decide) rfl⟩

/-! ### Producer: frame and in-order lemmas -/

/-- Setting a list position to the element already there is the identity. -/
theorem set_get_self {α : Type} : ∀ (l : List α) (n : Nat) (a : α),
    l.get? n = some a → l.set n a = l := by
  intro l
  induction l with
  | nil => intro n a h; cases h
  | cons x xs ih =>
      intro n a h
      cases n with
      | zero =>
          have hx : x = a := by simpa using h
          subst hx
          rfl
      | succ n =>
          have : xs.set n a = xs := ih n a (by simpa using h)
          show x :: xs.set n a = x :: xs
          rw [this]

/-- Chaining a hash into a stream payload does not change the indices. -/
theorem updateStream_map_index (st : List Alta.ProdPayload) (pos : Nat) (src : Int)
    (h : List Nat) :
    (Alta.updateStream st pos src h).map (fun p => p.index) =
      st.map (fun p => p.index) := by
  rw [Alta.updateStream]
  cases hg : st.get? pos with
  | none => rfl
  | some p =>
      show (st.set pos _).map (fun p => p.index) = st.map (fun p => p.index)
      rw [List.map_set]
      exact set_get_self _ _ _ (by rw [List.get?_map, hg]; rfl)

/-- The hash recursion only mutates the hash cache and payload contents:
the stream's indices, the next index, and the shutdown marker are
untouched. -/
theorem phRun_frame (sch : Alta.SchemeI) (hashFn : Alta.ProdPayload → List Nat)
    (fuel : Nat) : ∀ (s : Alta.Producer) (c : Alta.PHCall),
    (Alta.phRun sch hashFn fuel s c).1.stream.map (fun p => p.index) =
      s.stream.map (fun p => p.index) ∧
    (Alta.phRun sch hashFn fuel s c).1.next_index = s.next_index ∧
    (Alta.phRun sch hashFn fuel s c).1.last_index = s.last_index := by
  induction fuel with
  | zero => intro s c; exact ⟨rfl, rfl, rfl⟩
  | succ fuel ih =>
      intro s c
      match c with
      | .hash i =>
          rw [Alta.phRun]
          split
          · exact ⟨rfl, rfl, rfl⟩
          · exact ⟨rfl, rfl, rfl⟩
          · split
            · exact ⟨rfl, rfl, rfl⟩
            · split
              · exact ⟨rfl, rfl, rfl⟩
              · split
                · exact ⟨rfl, rfl, rfl⟩
                · split
                  · exact ⟨rfl, rfl, rfl⟩
                  · split
                    · next s2 h2 heq =>
                        have hf := ih { s with hashes := Alta.aset s.hashes i .pending }
                          (.compute i)
                        rw [heq] at hf
                        exact hf
                    · next s2 er heq =>
                        have hf := ih { s with hashes := Alta.aset s.hashes i .pending }
                          (.compute i)
                        rw [heq] at hf
                        exact hf
      | .compute i =>
          rw [Alta.phRun]
          split
          · exact ⟨rfl, rfl, rfl⟩
          · exact ih _ _
      | .srcLoop i [] incomplete =>
          rw [Alta.phRun]
          split
          · exact ⟨rfl, rfl, rfl⟩
          · split
            · exact ⟨rfl, rfl, rfl⟩
            · exact ⟨rfl, rfl, rfl⟩
      | .srcLoop i (src :: rest) incomplete =>
          rw [Alta.phRun]
          split
          · exact ⟨rfl, rfl, rfl⟩
          · split
            · exact ih _ _
            · split
              · next s' h' heq =>
                  have hf := ih s (.hash src)
                  rw [heq] at hf
                  split
                  · exact hf
                  · split
                    · next e heq2 =>
                        have hg := ih { s' with
                          stream := Alta.updateStream s'.stream (i - (e : Int)).toNat src h' }
                          (.srcLoop i rest incomplete)
                        exact ⟨hg.1.trans ((updateStream_map_index _ _ _ _).trans hf.1),
                          hg.2.1.trans hf.2.1, hg.2.2.trans hf.2.2⟩
                    · exact hf
              · next s' heq =>
                  have hf := ih s (.hash src)
                  rw [heq] at hf
                  have hg := ih s' (.srcLoop i rest true)
                  exact ⟨hg.1.trans hf.1, hg.2.1.trans hf.2.1, hg.2.2.trans hf.2.2⟩
              · next s' er hpn heq =>
                  have hf := ih s (.hash src)
                  rw [heq] at hf
                  exact hf

/-- Expiring old state only touches the hash cache. -/
theorem expireP_frame (sch : Alta.SchemeI) (s : Alta.Producer) :
    (Alta.expireP sch s).1.stream = s.stream ∧
    (Alta.expireP sch s).1.next_index = s.next_index ∧
    (Alta.expireP sch s).1.last_index = s.last_index := by
  rw [Alta.expireP]
  split
  · exact ⟨rfl, rfl, rfl⟩
  · split
    · exact ⟨rfl, rfl, rfl⟩
    · split
      · exact ⟨rfl, rfl, rfl⟩
      · exact ⟨rfl, rfl, rfl⟩

/-- The `payloads_ready` loop yields exactly the consecutive indices it
pops, continuing the accumulated run: if the yields so far are the
indices `k0, ..., k0+|acc|-1` and the stream holds the remaining
indices up to `next_index`, the same shape holds after the loop. -/
theorem readyLoop_inv (sch : Alta.SchemeI) (hashFn : Alta.ProdPayload → List Nat)
    (fuel : Nat) : ∀ (s : Alta.Producer) (acc : List Alta.ProdPayload) (k0 : Nat),
    acc.map (fun p => p.index) = List.range' k0 acc.length →
    s.stream.map (fun p => p.index) =
      List.range' (k0 + acc.length) (s.next_index - (k0 + acc.length)) →
    k0 + acc.length ≤ s.next_index →
    ((Alta.readyLoop sch hashFn fuel s acc).2.1.map (fun p => p.index) =
        List.range' k0 (Alta.readyLoop sch hashFn fuel s acc).2.1.length ∧
      (Alta.readyLoop sch hashFn fuel s acc).1.stream.map (fun p => p.index) =
        List.range' (k0 + (Alta.readyLoop sch hashFn fuel s acc).2.1.length)
          ((Alta.readyLoop sch hashFn fuel s acc).1.next_index -
            (k0 + (Alta.readyLoop sch hashFn fuel s acc).2.1.length)) ∧
      k0 + (Alta.readyLoop sch hashFn fuel s acc).2.1.length ≤
        (Alta.readyLoop sch hashFn fuel s acc).1.next_index) := by
  induction fuel with
  | zero => intro s acc k0 hacc hstr hle; exact ⟨hacc, hstr, hle⟩
  | succ fuel ih =>
      intro s acc k0 hacc hstr hle
      cases hst : s.stream with
      | nil =>
          rw [hst] at hstr
          simp only [Alta.readyLoop, hst]
          obtain ⟨he1, he2, he3⟩ := expireP_frame sch s
          refine ⟨hacc, ?_, ?_⟩
          · rw [he1, hst, he2]
            exact hstr
          · rw [he2]
            exact hle
      | cons front rest =>
          rw [hst] at hstr
          simp only [Alta.readyLoop, hst]
          split
          · split
            · next s' h' heq =>
                have hf := phRun_frame sch hashFn (Alta.phFuel sch s) s (.hash front.index)
                rw [heq, hst] at hf
                split
                · next heq2 =>
                    rw [heq2] at hf
                    simp only [List.map_cons, List.map_nil] at hf
                    exact absurd hf.1.symm (List.cons_ne_nil _ _)
                · next q rest' heq2 =>
                    rw [heq2] at hf
                    simp only [List.map_cons] at hf
                    -- the stream is nonempty, so next_index exceeds k0 + |acc|
                    have hm : s.next_index - (k0 + acc.length) =
                        (s.next_index - (k0 + acc.length) - 1) + 1 := by
                      rcases Nat.eq_or_lt_of_le hle with h | h
                      · exfalso
                        rw [← h, Nat.sub_self, List.range'_zero] at hstr
                        simp at hstr
                      · omega
                    rw [hm, List.range'_succ] at hstr
                    simp only [List.map_cons] at hstr
                    have hqh := hf.1.trans hstr
                    have hq : q.index = k0 + acc.length :=
                      ((List.cons.injEq _ _ _ _).mp hqh).1
                    have hrest : rest'.map (fun p => p.index) =
                        List.range' (k0 + acc.length + 1)
                          (s.next_index - (k0 + acc.length) - 1) :=
                      ((List.cons.injEq _ _ _ _).mp hqh).2
                    have hlt : k0 + acc.length < s.next_index := by omega
                    have hL : (acc ++ [q]).length = acc.length + 1 := by simp
                    have := ih { s' with stream := rest' } (acc ++ [q]) k0
                      (by
                        rw [List.map_append, hacc, hL]
                        simp only [List.map_cons, List.map_nil]
                        rw [hq]
                        have hcon : List.range' k0 (acc.length + 1) =
                            List.range' k0 acc.length ++ [k0 + acc.length] := by
                          rw [List.range'_concat, Nat.one_mul]
                        exact hcon.symm)
                      (by
                        show rest'.map (fun p => p.index) =
                          List.range' (k0 + (acc ++ [q]).length)
                            (s'.next_index - (k0 + (acc ++ [q]).length))
                        rw [hL, hf.2.1, hrest]
                        have e1 : k0 + (acc.length + 1) = k0 + acc.length + 1 := by omega
                        have e2 : s.next_index - (k0 + acc.length + 1) =
                            s.next_index - (k0 + acc.length) - 1 := by omega
                        rw [e1, e2])
                      (by
                        show k0 + (acc ++ [q]).length ≤ s'.next_index
                        rw [hL, hf.2.1]
                        omega)
                    exact this
            · next s' heq =>
                have hf := phRun_frame sch hashFn (Alta.phFuel sch s) s (.hash front.index)
                rw [heq, hst] at hf
                have hf1 : s'.stream.map (fun p => p.index) =
                    (front :: rest).map (fun p => p.index) := hf.1
                have hf2 : s'.next_index = s.next_index := hf.2.1
                refine ⟨hacc, ?_, ?_⟩
                · show s'.stream.map (fun p => p.index) =
                    List.range' (k0 + acc.length) (s'.next_index - (k0 + acc.length))
                  rw [hf1, hf2]
                  exact hstr
                · show k0 + acc.length ≤ s'.next_index
                  rw [hf2]
                  exact hle
            · next s' er hpn heq =>
                have hf := phRun_frame sch hashFn (Alta.phFuel sch s) s (.hash front.index)
                rw [heq, hst] at hf
                have hf1 : s'.stream.map (fun p => p.index) =
                    (front :: rest).map (fun p => p.index) := hf.1
                have hf2 : s'.next_index = s.next_index := hf.2.1
                refine ⟨hacc, ?_, ?_⟩
                · show s'.stream.map (fun p => p.index) =
                    List.range' (k0 + acc.length) (s'.next_index - (k0 + acc.length))
                  rw [hf1, hf2]
                  exact hstr
                · show k0 + acc.length ≤ s'.next_index
                  rw [hf2]
                  exact hle
          · obtain ⟨he1, he2, he3⟩ := expireP_frame sch s
            have he1' : (Alta.expireP sch s).1.stream.map (fun p => p.index) =
                (front :: rest).map (fun p => p.index) := by rw [he1, hst]
            refine ⟨hacc, ?_, ?_⟩
            · show (Alta.expireP sch s).1.stream.map (fun p => p.index) =
                List.range' (k0 + acc.length)
                  ((Alta.expireP sch s).1.next_index - (k0 + acc.length))
              rw [he1', he2]
              exact hstr
            · show k0 + acc.length ≤ (Alta.expireP sch s).1.next_index
              rw [he2]
              exact hle

/-- A push either is rejected (out of order) or appends exactly the next
index to the back of the stream. -/
theorem pushPayloadP_inv (sch : Alta.SchemeI) (hashFn : Alta.ProdPayload → List Nat)
    (s : Alta.Producer) (p : Alta.ProdPayload) (k : Nat)
    (hstr : s.stream.map (fun q => q.index) = List.range' k (s.next_index - k))
    (hle : k ≤ s.next_index) :
    (Alta.pushPayloadP sch hashFn s p).1.stream.map (fun q => q.index) =
      List.range' k ((Alta.pushPayloadP sch hashFn s p).1.next_index - k) ∧
    k ≤ (Alta.pushPayloadP sch hashFn s p).1.next_index ∧
    (Alta.pushPayloadP sch hashFn s p).1.last_index = s.last_index := by
  rw [Alta.pushPayloadP]
  split
  · exact ⟨hstr, hle, rfl⟩
  · next hne =>
      have hpi : p.index = s.next_index := by
        by_contra hc
        exact hne hc
      have key : ∀ (s1 s2 : Alta.Producer) (r : Except Alta.PErr (List Nat)),
          s1.stream = s.stream ++ [p] → s1.next_index = s.next_index + 1 →
          s1.last_index = s.last_index →
          Alta.phRun sch hashFn (Alta.phFuel sch s1) s1 (.hash (p.index : Int)) = (s2, r) →
          s2.stream.map (fun q => q.index) = List.range' k (s2.next_index - k) ∧
          k ≤ s2.next_index ∧ s2.last_index = s.last_index := by
        intro s1 s2 r h1s h2s h3s heq
        have hf := phRun_frame sch hashFn (Alta.phFuel sch s1) s1 (.hash (p.index : Int))
        rw [heq] at hf
        have hf1 : s2.stream.map (fun q => q.index) =
            s1.stream.map (fun q => q.index) := hf.1
        have hf2 : s2.next_index = s1.next_index := hf.2.1
        have hf3 : s2.last_index = s1.last_index := hf.2.2
        refine ⟨?_, ?_, hf3.trans h3s⟩
        · rw [hf1, h1s, hf2, h2s, List.map_append, hstr]
          simp only [List.map_cons, List.map_nil]
          rw [hpi]
          have h1 : s.next_index + 1 - k = (s.next_index - k) + 1 := by omega
          rw [h1]
          have hcon : List.range' k ((s.next_index - k) + 1) =
              List.range' k (s.next_index - k) ++ [k + (s.next_index - k)] := by
            rw [List.range'_concat, Nat.one_mul]
          rw [hcon]
          have h2 : k + (s.next_index - k) = s.next_index := by omega
          rw [h2]
        · rw [hf2, h2s]
          omega
      split
      · next s2 h2 heq =>
          exact key { s with stream := s.stream ++ [p], next_index := s.next_index + 1 }
            s2 _ rfl rfl rfl heq
      · next s2 heq =>
          exact key { s with stream := s.stream ++ [p], next_index := s.next_index + 1 }
            s2 _ rfl rfl rfl heq
      · next s2 er hpn heq =>
          exact key { s with stream := s.stream ++ [p], next_index := s.next_index + 1 }
            s2 _ rfl rfl rfl heq

/-- `shutdown` only records the latest index. -/
theorem shutdownP_frame (s : Alta.Producer) :
    (Alta.shutdownP s).1.stream = s.stream ∧
    (Alta.shutdownP s).1.next_index = s.next_index := by
  rw [Alta.shutdownP]
  split
  · exact ⟨rfl, rfl⟩
  · exact ⟨rfl, rfl⟩

/-- Over any interleaving of producer API calls, the lifetime yields are
the consecutive indices from 0 and the stream holds the following
consecutive indices up to `next_index`. -/
theorem runProducer_aux (sch : Alta.SchemeI) (hashFn : Alta.ProdPayload → List Nat) :
    ∀ (ops : List Alta.POp) (st : Alta.Producer × List Alta.ProdPayload),
    st.2.map (fun p => p.index) = List.range' 0 st.2.length →
    st.1.stream.map (fun p => p.index) =
      List.range' st.2.length (st.1.next_index - st.2.length) →
    st.2.length ≤ st.1.next_index →
    ((ops.foldl (fun acc op =>
        ((Alta.pstep sch hashFn acc.1 op).1, acc.2 ++ (Alta.pstep sch hashFn acc.1 op).2))
        st).2.map (fun p => p.index) =
      List.range' 0 (ops.foldl (fun acc op =>
        ((Alta.pstep sch hashFn acc.1 op).1, acc.2 ++ (Alta.pstep sch hashFn acc.1 op).2))
        st).2.length ∧
    (ops.foldl (fun acc op =>
        ((Alta.pstep sch hashFn acc.1 op).1, acc.2 ++ (Alta.pstep sch hashFn acc.1 op).2))
        st).1.stream.map (fun p => p.index) =
      List.range' (ops.foldl (fun acc op =>
          ((Alta.pstep sch hashFn acc.1 op).1, acc.2 ++ (Alta.pstep sch hashFn acc.1 op).2))
          st).2.length
        ((ops.foldl (fun acc op =>
            ((Alta.pstep sch hashFn acc.1 op).1, acc.2 ++ (Alta.pstep sch hashFn acc.1 op).2))
            st).1.next_index -
          (ops.foldl (fun acc op =>
              ((Alta.pstep sch hashFn acc.1 op).1,
                acc.2 ++ (Alta.pstep sch hashFn acc.1 op).2))
              st).2.length)) := by
  intro ops
  induction ops with
  | nil => intro st h1 h2 _; exact ⟨h1, h2⟩
  | cons op rest ih =>
      intro st h1 h2 h3
      rw [List.foldl_cons]
      match op with
      | .push p =>
          have hnil : st.2 ++ (Alta.pstep sch hashFn st.1 (.push p)).2 = st.2 :=
            List.append_nil st.2
          have hp := pushPayloadP_inv sch hashFn st.1 p st.2.length h2 h3
          apply ih
          · show (st.2 ++ (Alta.pstep sch hashFn st.1 (.push p)).2).map
                (fun p => p.index) =
              List.range' 0 (st.2 ++ (Alta.pstep sch hashFn st.1 (.push p)).2).length
            rw [hnil]
            exact h1
          · show (Alta.pushPayloadP sch hashFn st.1 p).1.stream.map (fun p => p.index) =
              List.range' (st.2 ++ (Alta.pstep sch hashFn st.1 (.push p)).2).length
                ((Alta.pushPayloadP sch hashFn st.1 p).1.next_index -
                  (st.2 ++ (Alta.pstep sch hashFn st.1 (.push p)).2).length)
            rw [hnil]
            exact hp.1
          · show (st.2 ++ (Alta.pstep sch hashFn st.1 (.push p)).2).length ≤
              (Alta.pushPayloadP sch hashFn st.1 p).1.next_index
            rw [hnil]
            exact hp.2.1
      | .shutdown =>
          have hnil : st.2 ++ (Alta.pstep sch hashFn st.1 .shutdown).2 = st.2 :=
            List.append_nil st.2
          obtain ⟨hs1, hs2⟩ := shutdownP_frame st.1
          apply ih
          · show (st.2 ++ (Alta.pstep sch hashFn st.1 .shutdown).2).map
                (fun p => p.index) =
              List.range' 0 (st.2 ++ (Alta.pstep sch hashFn st.1 .shutdown).2).length
            rw [hnil]
            exact h1
          · show (Alta.shutdownP st.1).1.stream.map (fun p => p.index) =
              List.range' (st.2 ++ (Alta.pstep sch hashFn st.1 .shutdown).2).length
                ((Alta.shutdownP st.1).1.next_index -
                  (st.2 ++ (Alta.pstep sch hashFn st.1 .shutdown).2).length)
            rw [hnil, hs1, hs2]
            exact h2
          · show (st.2 ++ (Alta.pstep sch hashFn st.1 .shutdown).2).length ≤
              (Alta.shutdownP st.1).1.next_index
            rw [hnil, hs2]
            exact h3
      | .ready =>
          have hr := readyLoop_inv sch hashFn (st.1.stream.length + 1) st.1 [] st.2.length
            (by simp)
            (by simpa using h2)
            (by simpa using h3)
          apply ih
          · show (st.2 ++
                (Alta.readyLoop sch hashFn (st.1.stream.length + 1) st.1 []).2.1).map
                (fun p => p.index) =
              List.range' 0 (st.2 ++
                (Alta.readyLoop sch hashFn (st.1.stream.length + 1) st.1 []).2.1).length
            rw [List.map_append, List.length_append, h1, hr.1]
            have hx := List.range'_append_1 0 st.2.length
              (Alta.readyLoop sch hashFn (st.1.stream.length + 1) st.1 []).2.1.length
            rw [Nat.zero_add] at hx
            rw [Nat.add_comm st.2.length
              (Alta.readyLoop sch hashFn (st.1.stream.length + 1) st.1 []).2.1.length]
            exact hx
          · show (Alta.readyLoop sch hashFn (st.1.stream.length + 1) st.1 []).1.stream.map
                (fun p => p.index) =
              List.range' (st.2 ++
                  (Alta.readyLoop sch hashFn (st.1.stream.length + 1) st.1 []).2.1).length
                ((Alta.readyLoop sch hashFn (st.1.stream.length + 1) st.1 []).1.next_index -
                  (st.2 ++
                    (Alta.readyLoop sch hashFn (st.1.stream.length + 1) st.1 []).2.1).length)
            rw [List.length_append]
            exact hr.2.1
          · show (st.2 ++
                (Alta.readyLoop sch hashFn (st.1.stream.length + 1) st.1 []).2.1).length ≤
              (Alta.readyLoop sch hashFn (st.1.stream.length + 1) st.1 []).1.next_index
            rw [List.length_append]
            exact hr.2.2

/-- Claim C5: the spec says that once `shutdown()` has been called the
next `payloads_ready()` drain yields every payload remaining in the
stream, for every scheme and every latest index, including a stream
whose latest index is 0. The code diverges at latest index 0: `shutdown`
records `last_index = 0`, and the drain's readiness override is
`if self._last_index:`, which is falsy at 0, so with
`AugmentedScheme(a=1, p=3)` and the single pushed payload of index 0
the drain after shutdown yields nothing and the payload stays in the
stream. -/
theorem C5_shutdown_zero_no_drain :
    (Alta.runProducer Alta.sch13 Alta.c5HashFn
        [.push ⟨0, [], []⟩, .shutdown]).1.last_index = some 0 ∧
    (Alta.runProducer Alta.sch13 Alta.c5HashFn
        [.push ⟨0, [], []⟩, .shutdown, .ready]).2 = [] ∧
    (Alta.runProducer Alta.sch13 Alta.c5HashFn
        [.push ⟨0, [], []⟩, .shutdown, .ready]).1.stream.map (fun p => p.index) =
      [0] := by
  exact ⟨rfl, rfl, rfl⟩

/-- Claim C7: across every interleaving of `push_payload`, `shutdown`
and `payloads_ready` calls, the indices yielded over the producer's
lifetime are exactly `0, 1, 2, ...` in order: strictly ascending, equal
to the input order, each pushed payload yielded at most once. (The
claim's "exactly once, once is_ready holds or shutdown has been called"
part fails; see the counterexample.) -/
theorem C7_producer_in_order (sch : Alta.SchemeI)
    (hashFn : Alta.ProdPayload → List Nat) (ops : List Alta.POp) :
    (Alta.runProducer sch hashFn ops).2.map (fun p => p.index) =
      List.range (Alta.runProducer sch hashFn ops).2.length := by
  have h := runProducer_aux sch hashFn ops (Alta.producerInit, []) rfl rfl (Nat.le_refl 0)
  rw [List.range_eq_range']
  exact h.1

/-- Claim C7 counterexample: with `AugmentedScheme(a=1, p=3)`, after
pushing the payload of index 0 and calling `shutdown()`, a
`payloads_ready()` drain yields nothing and leaves the producer state
unchanged, so the pushed payload is yielded zero times — never exactly
once — although shutdown has been called. -/
theorem C7_not_exactly_once :
    (Alta.runProducer Alta.sch13 Alta.c5HashFn
        [.push ⟨0, [], []⟩, .shutdown, .ready]).2 = [] ∧
    (Alta.runProducer Alta.sch13 Alta.c5HashFn
        [.push ⟨0, [], []⟩, .shutdown, .ready]).1 =
      (Alta.runProducer Alta.sch13 Alta.c5HashFn [.push ⟨0, [], []⟩, .shutdown]).1 := by
  exact ⟨rfl, rfl⟩
